import Mathlib

/-!
# ECG peak detection and heart-rate classification (`projectfinal.cpp`)

A shallow embedding of the program and the properties of its specification.

Modelling conventions.

* An amplitude is only compared, with another amplitude and with the threshold `0.1`: it
  is a rational number (`ℚ`), under an order-preserving reading of the doubles as rationals
  that sends the double `0.1` to `1 / 10`.
* A time is a rational number that stands for the double nearest to it (`toDouble`): for
  a double itself, for the decimal number of the input file the double that the extraction
  stores, and for a negative rational that rounds to zero the double `-0.0`.  A rational
  beyond the largest double stands for no stored time (the extraction of such a number
  fails).  The subtraction of two peak times is the double subtraction `doubleSub`: the
  exact difference of the two doubles, rounded to the nearest double, a tie to the even
  significand.  The literal `0.6` of `classifyHeartRate` is the double `toDouble 0.6`.
* `vector<T>` is a `List`; `v[i]` with `i` outside the vector is undefined behaviour in
  the source and is a `Fault` in the model (`vget`).
* `size_t` is a natural number below `2 ^ 64`; the one subtraction of the program that can
  wrap, `amp.size() - 1`, is taken modulo `2 ^ 64`.
* `int` is a 32-bit two's-complement integer: storing a `size_t` into `vector<int>`
  keeps it modulo `2 ^ 32` (`toInt`).
* `queue<string>` is a `List String`: `push` appends at the back, `front`/`pop` take the head.
* A `for (size_t i = lo; i < hi; i++)` loop is `forRange`: the body runs for
  `i = lo, lo + 1, ..., hi - 1`, and stops at the first fault.
* A file is the string of its characters; `World` tells which paths open for reading and
  for writing and keeps what went to `cout` and `cerr`.  A file that was written opens
  for reading with the written content.
* The extraction `file >> x` of a double works on tokens, each numeric or not; how the
  stream cuts a text into tokens is a parameter of `loadData`.
* The insertion `ss << value` of a double is a parameter `put` of `toString` and of
  `classifyHeartRate`; `putDouble` is the default format of the C++ standard (the
  conversion `%g` with the precision 6, a tie to the even digit) of the double that the
  rational stands for.
-/

namespace ECGModel

/-! ## Machine integers and vectors -/

/-- The number of values of `size_t`. -/
def sizeMod : Nat := 2 ^ 64

/-- Subtraction `a - b` of two `size_t` values (both below `2 ^ 64`). -/
def sizeSub (a b : Nat) : Nat := (a + sizeMod - b) % sizeMod

/-- Conversion of a `size_t` to `int`, as done by `peakData.push_back(i)`:
the value modulo `2 ^ 32`, read as a signed 32-bit number. -/
def toInt (i : Nat) : Int :=
  if i % 2 ^ 32 < 2 ^ 31 then ((i % 2 ^ 32 : Nat) : Int)
  else ((i % 2 ^ 32 : Nat) : Int) - 2 ^ 32

/-- An access `v[index]` to a vector of `size` elements with `size ≤ index`. -/
structure Fault where
  index : Nat
  size : Nat
deriving DecidableEq, Repr

/-- The read `v[i]` of a vector. -/
def vget (v : List ℚ) (i : Nat) : Except Fault ℚ :=
  match v[i]? with
  | some x => Except.ok x
  | none => Except.error ⟨i, v.length⟩

/-- The iterations `i, i + 1, ..., i + k - 1` of a loop body, in this order. -/
def forLoop {σ : Type} (body : Nat → σ → Except Fault σ) : Nat → Nat → σ → Except Fault σ
  | 0, _, s => Except.ok s
  | k + 1, i, s =>
    match body i s with
    | Except.ok s' => forLoop body k (i + 1) s'
    | Except.error f => Except.error f

/-- The loop `for (size_t i = lo; i < hi; i++) body`. -/
def forRange {σ : Type} (body : Nat → σ → Except Fault σ) (lo hi : Nat) (s : σ) :
    Except Fault σ :=
  forLoop body (hi - lo) lo s

/-! ## Doubles -/

/-- The rational rounded to the nearest integer, a tie to the even one. -/
def roundHalfEven (q : ℚ) : ℤ :=
  if q - ⌊q⌋ < 1 / 2 then ⌊q⌋
  else if 1 / 2 < q - ⌊q⌋ then ⌊q⌋ + 1
  else if ⌊q⌋ % 2 = 0 then ⌊q⌋
  else ⌊q⌋ + 1

/-- The binary exponent of the last place of the doubles near `x`: `e - 52` for
`2 ^ e ≤ |x| < 2 ^ (e + 1)`, and `-1074` for the subnormal numbers below `2 ^ -1022`. -/
def quantumExponent (x : ℚ) : ℤ := max (Int.log 2 |x|) (-1022) - 52

/-- The double nearest to a rational, a tie to the even significand, as an exact rational.
A result beyond the largest double is kept as it is; the program compares it with 1 and
0.6 only, as it would the infinity that the machine gives. -/
def toDouble (x : ℚ) : ℚ :=
  roundHalfEven (x / 2 ^ quantumExponent x) * 2 ^ quantumExponent x

/-- The subtraction `a - b` of two doubles: the difference of the two doubles, rounded to
a double. -/
def doubleSub (a b : ℚ) : ℚ := toDouble (toDouble a - toDouble b)

/-! ## The class `ECG` -/

/-- The data members of the class `ECG`. -/
structure ECG where
  times : List ℚ
  amp : List ℚ
  peakData : List Int
  peakTime : List ℚ
deriving DecidableEq, Repr

/-- The local `double threshold = 0.1` of `detectPeaks`. -/
def threshold : ℚ := 0.1

/-- The body of the loop of `ECG::detectPeaks` at index `i` (with `1 ≤ i`). -/
def detectBody (i : Nat) (e : ECG) : Except Fault ECG := do
  let a ← vget e.amp i
  if a > threshold then
    let prev ← vget e.amp (i - 1)
    if a > prev then
      let next ← vget e.amp (i + 1)
      if a > next then
        let t ← vget e.times i
        pure { e with peakData := e.peakData ++ [toInt i], peakTime := e.peakTime ++ [t] }
      else pure e
    else pure e
  else pure e

/-- `ECG::detectPeaks`: the loop `for (size_t i = 1; i < amp.size() - 1; i++)`. -/
def detectPeaks (e : ECG) : Except Fault ECG :=
  forRange detectBody 1 (sizeSub e.amp.length 1) e

/-! ## `classifyHeartRate` -/

/-- The three queues that `classifyHeartRate` receives by reference. -/
structure Queues where
  tachycardiaResults : List String
  bradycardiaResults : List String
  normalResults : List String
deriving DecidableEq, Repr

/-- `toString(value)`: the characters that `ss << value` puts into the string stream;
`put` is the stream's formatting of a double. -/
def toString (put : ℚ → String) (value : ℚ) : String := put value

/-- The body of the loop of `ECG::classifyHeartRate` at index `i` (with `1 ≤ i`).
The source reads `peakTime[i - 1]` and `peakTime[i]` once for the interval and once
more for the text; the two reads are bound once here.  The interval is the double that
the subtraction gives, and it is compared with the doubles 1 and 0.6. -/
def classifyBody (put : ℚ → String) (e : ECG) (i : Nat) (q : Queues) : Except Fault Queues := do
  let cur ← vget e.peakTime i
  let prev ← vget e.peakTime (i - 1)
  let interval := doubleSub cur prev
  if interval > 1 then
    pure { q with bradycardiaResults := q.bradycardiaResults ++
      ["Bradycardia detected between peaks at " ++ toString put prev ++ " and " ++
        toString put cur] }
  else if interval < toDouble 0.6 then
    pure { q with tachycardiaResults := q.tachycardiaResults ++
      ["Tachycardia detected between peaks at " ++ toString put prev ++ " and " ++
        toString put cur] }
  else
    pure { q with normalResults := q.normalResults ++
      ["Normal heart rate detected between peaks at " ++ toString put prev ++ " and " ++
        toString put cur] }

/-- `ECG::classifyHeartRate`: the loop `for (size_t i = 1; i < peakTime.size(); i++)`.
The store itself is not written. -/
def classifyHeartRate (put : ℚ → String) (e : ECG) (q : Queues) : Except Fault Queues :=
  forRange (classifyBody put e) 1 e.peakTime.length q

/-! ## Report files -/

/-- The files and the two console streams.  `files p = none` when `p` cannot be opened for
reading, `canWrite p` tells whether `ofstream` opens `p`; `cout` and `cerr` hold the lines
printed so far. -/
structure World where
  files : String → Option String
  canWrite : String → Bool
  cout : List String
  cerr : List String

/-- The line terminator written by `endl` and looked for by `getline`. -/
def newline : Char := Char.ofNat 10

/-- One call `getline(file, line)` on the unread characters `cs`: `none` when the stream
is at its end (nothing is extracted and the call fails), else the characters before the
first newline, and what is left unread after that newline. -/
def getline (cs : List Char) : Option (String × List Char) :=
  match cs with
  | [] => none
  | _ :: _ =>
    some (String.mk (cs.takeWhile (fun c => c != newline)),
      (cs.dropWhile (fun c => c != newline)).drop 1)

/-- The loop `while (getline(file, line)) results.push(line)`; every successful call
consumes a character, so the count of unread characters bounds the iterations. -/
def getlineLoop : Nat → List Char → List String → List String
  | 0, _, results => results
  | k + 1, cs, results =>
    match getline cs with
    | none => results
    | some (line, unread) => getlineLoop k unread (results ++ [line])

/-- The lines that the loop of `readDetectionResults` pushes for a file of content `text`. -/
def linesOf (text : String) (results : List String) : List String :=
  getlineLoop text.data.length text.data results

/-- `ECG::readDetectionResults`: the queue after the call, and the world. -/
def readDetectionResults (w : World) (filename : String) (results : List String) :
    World × List String :=
  match w.files filename with
  | none => ({ w with cerr := w.cerr ++ ["ERROR: Failed to open file: " ++ filename] }, results)
  | some text => (w, linesOf text results)

/-- The loop `while (!results.empty()) { outFile << results.front() << endl; results.pop(); }`:
the characters written, after those of `out`. -/
def writeLoop : List String → String → String
  | [], out => out
  | front :: rest, out => writeLoop rest (out ++ front ++ String.singleton newline)

/-- `ECG::writeDetectionResults`: the world and the queue after the call.  When the file
opens it is created or truncated, receives the queue line by line, and the queue is left
empty; when it does not open, a message goes to `cerr` and the queue is untouched. -/
def writeDetectionResults (w : World) (filename : String) (results : List String) :
    World × List String :=
  if w.canWrite filename then
    ({ w with
        files := fun p => if p = filename then some (writeLoop results "") else w.files p,
        cout := w.cout ++ ["Results written to " ++ filename] }, [])
  else
    ({ w with cerr := w.cerr ++ ["ERROR: Failed to open output file: " ++ filename] }, results)

/-- The separator line of `combineFiles`. -/
def separator : String := "**************"

/-- The function `combineFiles(resultFile, person1File, person2File)`. -/
def combineFiles (w : World) (resultFile person1File person2File : String) : World :=
  let results : List String := []
  let r1 := readDetectionResults w person1File results
  let results := r1.2 ++ [separator]
  let r2 := readDetectionResults r1.1 person2File results
  (writeDetectionResults r2.1 resultFile r2.2).1

/-- A call `person.classifyHeartRate(t, b, n)` as a step on the object and the three
queues: the method assigns no data member, so the object comes back as it was. -/
def classifyCall (put : ℚ → String) (s : ECG × Queues) : Except Fault (ECG × Queues) :=
  match classifyHeartRate put s.1 s.2 with
  | Except.ok q => Except.ok (s.1, q)
  | Except.error f => Except.error f

/-! ## `loadData` -/

/-- A token of the input file as the extraction `file >> x` of a double sees it:
`some v` for a numeric token of value `v`, `none` for a token that is not numeric. -/
abbrev Token := Option ℚ

/-- The loop `while (file >> time >> amplitude) { times.push_back(time);
amp.push_back(amplitude); }` on the unread tokens.  The condition holds when the next two
tokens are numeric; at the end of the input or at a token that is not numeric the
extraction fails, the stream stays failed and the loop ends. -/
def loadLoop : List Token → ECG → ECG
  | some time :: some amplitude :: unread, e =>
    loadLoop unread { e with times := e.times ++ [time], amp := e.amp ++ [amplitude] }
  | _, e => e

/-- `ECG::loadData`.  `tokens` gives the tokens that the stream finds in the text of a
file. -/
def loadData (tokens : String → List Token) (w : World) (fileName : String) (e : ECG) :
    World × ECG :=
  match w.files fileName with
  | none => ({ w with cerr := w.cerr ++ ["ERROR: Failed to open file: " ++ fileName] }, e)
  | some text =>
    ({ w with cout := w.cout ++ ["Data loaded from " ++ fileName ++ ". Total records: " ++
        Nat.repr (loadLoop (tokens text) e).times.length] },
      loadLoop (tokens text) e)

/-! ## The default format of a double in an output stream -/

/-- Six significant decimal digits of a value: its sign, the digits as a number `mantissa`
(0 for a zero, else between 100000 and 999999) and the decimal exponent of the first
digit: the value is about `mantissa * 10 ^ (exponent - 5)`. -/
structure SixDigits where
  negative : Bool
  mantissa : Nat
  exponent : Int
deriving DecidableEq, Repr

/-- The six significant digits of a rational, as the conversion `%g` with the precision 6
takes them: the value is scaled to six digits before the point and rounded to the nearest
integer, a tie to the even one; a value that rounds up to the next power of ten takes
the next exponent. -/
def sixDigits (value : ℚ) : SixDigits :=
  if value = 0 then ⟨false, 0, 0⟩
  else if (roundHalfEven (|value| / 10 ^ (Int.log 10 |value| - 5))).toNat = 1000000 then
    ⟨decide (value < 0), 100000, Int.log 10 |value| + 1⟩
  else
    ⟨decide (value < 0), (roundHalfEven (|value| / 10 ^ (Int.log 10 |value| - 5))).toNat,
      Int.log 10 |value|⟩

/-- The six significant digits that are printed for a stored time: those of the double,
with the sign of the stored value, so that a negative value that rounds to the double
zero keeps its sign (the double `-0.0`). -/
def shownDigits (value : ℚ) : SixDigits :=
  { sixDigits (toDouble value) with negative := decide (value < 0) }

/-- The six decimal digits of a number below 1000000, the first one first. -/
def digits6 (m : Nat) : List Char :=
  [Nat.digitChar (m / 100000 % 10), Nat.digitChar (m / 10000 % 10),
    Nat.digitChar (m / 1000 % 10), Nat.digitChar (m / 100 % 10),
    Nat.digitChar (m / 10 % 10), Nat.digitChar (m % 10)]

/-- The characters without the zeros at their end. -/
def stripZeros : List Char → List Char
  | [] => []
  | c :: cs => if stripZeros cs = [] ∧ c = '0' then [] else c :: stripZeros cs

/-- A fraction part: nothing when no digit is left without the zeros at the end, else a
point and these digits. -/
def fraction (cs : List Char) : List Char :=
  if stripZeros cs = [] then [] else '.' :: stripZeros cs

/-- The digits of a decimal exponent, two at least. -/
def exponentDigits (n : Nat) : List Char :=
  if n < 10 then ['0', Nat.digitChar n] else (Nat.digits 10 n).reverse.map Nat.digitChar

/-- The digits before the point: in fixed notation (decimal exponent from -4 to 5) the
integer part, a single 0 below 1; in scientific notation the first digit. -/
def intDigits (s : SixDigits) : List Char :=
  if 0 ≤ s.exponent ∧ s.exponent < 6 then (digits6 s.mantissa).take (s.exponent.toNat + 1)
  else if -4 ≤ s.exponent ∧ s.exponent < 0 then ['0']
  else (digits6 s.mantissa).take 1

/-- The digits after the point, before the zeros at their end are removed. -/
def fracDigits (s : SixDigits) : List Char :=
  if 0 ≤ s.exponent ∧ s.exponent < 6 then (digits6 s.mantissa).drop (s.exponent.toNat + 1)
  else if -4 ≤ s.exponent ∧ s.exponent < 0 then
    List.replicate ((-s.exponent).toNat - 1) '0' ++ digits6 s.mantissa
  else (digits6 s.mantissa).drop 1

/-- The exponent part: none in fixed notation; in scientific notation the letter `e`, the
sign of the exponent and its digits. -/
def exponentPart (s : SixDigits) : List Char :=
  if -4 ≤ s.exponent ∧ s.exponent < 6 then []
  else ['e', if s.exponent < 0 then '-' else '+'] ++ exponentDigits s.exponent.natAbs

/-- The text of six significant digits in the default format of an output stream (the
conversion `%g`): a minus sign for a negative value, fixed notation when the decimal
exponent is between -4 and 5 and scientific notation otherwise, in both without the zeros
at the end of the fraction, and without the point when no fraction is left. -/
def render (s : SixDigits) : String :=
  String.mk ((if s.negative then ['-'] else []) ++
    (intDigits s ++ (fraction (fracDigits s) ++ exponentPart s)))

/-- The stream insertion `ss << value` of a double with the default flags: six significant
digits in the format of the conversion `%g`. -/
def putDouble (value : ℚ) : String := render (shownDigits value)

/-! ## Specification-side definitions for peak detection -/

/-- Sample `i` is a strict local maximum above the threshold: the three tests of
`detectPeaks` on the samples `i - 1`, `i` and `i + 1`. -/
def isPeak (amp : List ℚ) (i : Nat) : Prop :=
  amp.getD i 0 > threshold ∧ amp.getD i 0 > amp.getD (i - 1) 0 ∧
    amp.getD i 0 > amp.getD (i + 1) 0

instance (amp : List ℚ) (i : Nat) : Decidable (isPeak amp i) := by
  unfold isPeak; infer_instance

/-- The indices `i` with `lo ≤ i < lo + k` that satisfy `isPeak`, in ascending order. -/
def peaksIn (amp : List ℚ) (lo k : Nat) : List Nat :=
  (List.range' lo k).filter (fun i => decide (isPeak amp i))

/-- The indices that one run of `detectPeaks` finds in the amplitudes: the peaks among the
scanned indices `1, ..., amp.size() - 2`. -/
def foundPeaks (amp : List ℚ) : List Nat :=
  peaksIn amp 1 (sizeSub amp.length 1 - 1)

/-- The amplitudes of a signal of `n` samples: 1 at the samples `a` and `b`, 0 elsewhere. -/
def pulses (n a b : Nat) : List ℚ :=
  (List.range n).map (fun i => if i = a ∨ i = b then 1 else 0)

/-- The store of `n` samples taken at the times `0, 1, ..., n - 1`, with the amplitudes
`pulses n a b` and no peak recorded yet. -/
def pulseStore (n a b : Nat) : ECG :=
  ⟨List.map (fun i : Nat => (i : ℚ)) (List.range n), pulses n a b, [], []⟩

/-- The peak lists have one length, and each recorded peak is the index of a sample and
carries the time of that sample. -/
def peaksConsistent (e : ECG) : Prop :=
  e.peakData.length = e.peakTime.length ∧
  ∀ (k : Nat) (x : Int), e.peakData[k]? = some x →
    0 ≤ x ∧ x.toNat < e.times.length ∧ e.peakTime[k]? = e.times[x.toNat]?

/-- The values of the longest prefix of numeric tokens. -/
def numericPrefix (input : List Token) : List ℚ :=
  (input.takeWhile (fun t => t.isSome)).filterMap id

/-- The values taken two at a time, in order; a last value without a partner is left
out. -/
def pairUp : List ℚ → List (ℚ × ℚ)
  | time :: amplitude :: rest => (time, amplitude) :: pairUp rest
  | _ => []

/-! ## Specification-side definitions for the classification -/

/-- The pairs `(peakTime[i - 1], peakTime[i])` of adjacent peak times, for `i = 1, 2, ...`. -/
def adjacentPairs (peakTime : List ℚ) : List (ℚ × ℚ) :=
  peakTime.zip peakTime.tail

/-- The three categories of an interval. -/
inductive Category where
  | Fast
  | Slow
  | Normal
deriving DecidableEq, Repr

/-- The category of the interval between two peak times, by the rules of the
specification: above 1 is Slow, otherwise below 0.6 is Fast, otherwise Normal; the
interval is the double `p.2 - p.1` and 0.6 is the double nearest to it. -/
def categoryOf (p : ℚ × ℚ) : Category :=
  if doubleSub p.2 p.1 > 1 then Category.Slow
  else if doubleSub p.2 p.1 < toDouble 0.6 then Category.Fast
  else Category.Normal

/-- The report line of a category for a pair of peak times. -/
def reportLine (put : ℚ → String) (c : Category) (p : ℚ × ℚ) : String :=
  match c with
  | Category.Slow =>
    "Bradycardia detected between peaks at " ++ toString put p.1 ++ " and " ++ toString put p.2
  | Category.Fast =>
    "Tachycardia detected between peaks at " ++ toString put p.1 ++ " and " ++ toString put p.2
  | Category.Normal =>
    "Normal heart rate detected between peaks at " ++ toString put p.1 ++ " and " ++
      toString put p.2

/-- The lines of one category for a list of pairs, in the order of the pairs. -/
def linesFor (put : ℚ → String) (c : Category) (pairs : List (ℚ × ℚ)) : List String :=
  (pairs.filter (fun p => decide (categoryOf p = c))).map (reportLine put c)

/-- The pair of peak times that the loop of `classifyHeartRate` reads at index `i`. -/
def pairAt (peakTime : List ℚ) (i : Nat) : ℚ × ℚ :=
  (peakTime.getD (i - 1) 0, peakTime.getD i 0)

/-- The empty queues. -/
def noResults : Queues := ⟨[], [], []⟩

/-! ## Specification-side definitions for the report files -/

/-- The characters of a file that holds the given lines, each followed by a newline. -/
def textOf : List String → List Char
  | [] => []
  | line :: rest => line.data ++ newline :: textOf rest

/-- The line holds no newline character. -/
def oneLine (line : String) : Prop := newline ∉ line.data

instance (line : String) : Decidable (oneLine line) := by
  unfold oneLine; infer_instance

/-- The lines that `readDetectionResults` pushes for a path: the lines of the file when it
opens, none when it does not. -/
def linesRead (w : World) (path : String) : List String :=
  match w.files path with
  | none => []
  | some text => linesOf text []

/-- What `readDetectionResults` prints on `cerr` for a path: one line when the file does
not open. -/
def openErrors (w : World) (path : String) : List String :=
  match w.files path with
  | none => ["ERROR: Failed to open file: " ++ path]
  | some _ => []

/-- A world with the report `a.txt` of the single line `x` and the report `b.txt` of the
single line `y`; every path can be written. -/
def twoReports : World :=
  ⟨fun p => if p = "a.txt" then some "x\n" else if p = "b.txt" then some "y\n" else none,
    fun _ => true, [], []⟩

/-- A world with the report `b.txt` of the single line `y` and no other file; every path
can be written. -/
def oneReport : World :=
  ⟨fun p => if p = "b.txt" then some "y\n" else none, fun _ => true, [], []⟩

/-- A world with the signal file `person1.txt` of the text `0 0 1 0.5 2 x 3 4`; every path
can be written. -/
def signalWorld : World :=
  ⟨fun p => if p = "person1.txt" then some "0 0 1 0.5 2 x 3 4" else none, fun _ => true, [], []⟩

/-- The tokens of the text of `signalWorld`: five numbers, the token `x`, two numbers. -/
def signalTokens : String → List Token :=
  fun _ => [some 0, some 0, some 1, some 0.5, some 2, none, some 3, some 4]

/-! ## Specification-side definitions for the text of a time -/

theorem vget_of_lt (v : List ℚ) (i : Nat) (h : i < v.length) :
    vget v i = Except.ok (v.getD i 0) := by
  simp [vget, List.getD, List.getElem?_eq_getElem h]

theorem vget_of_le (v : List ℚ) (i : Nat) (h : v.length ≤ i) :
    vget v i = Except.error ⟨i, v.length⟩ := by
  simp [vget, List.getElem?_eq_none h]

theorem detectBody_eq (e : ECG) (i : Nat) (h1 : 1 ≤ i) (h2 : i + 1 < e.amp.length)
    (h3 : i < e.times.length) :
    detectBody i e = Except.ok (if isPeak e.amp i then
      { e with peakData := e.peakData ++ [toInt i],
               peakTime := e.peakTime ++ [e.times.getD i 0] } else e) := by
  have hi : i < e.amp.length := by omega
  have hp : i - 1 < e.amp.length := by omega
  unfold detectBody
  rw [vget_of_lt _ _ hi, vget_of_lt _ _ hp, vget_of_lt _ _ h2, vget_of_lt _ _ h3]
  simp only [isPeak, bind, Except.bind, pure, Except.pure]
  by_cases ha : e.amp.getD i 0 > threshold
  · by_cases hb : e.amp.getD i 0 > e.amp.getD (i - 1) 0
    · by_cases hc : e.amp.getD i 0 > e.amp.getD (i + 1) 0
      · simp only [ha, hb, hc, and_self, if_true]
      · simp only [ha, hb, hc, and_false, if_true, if_false]
    · simp only [ha, hb, false_and, and_false, if_true, if_false]
  · simp only [ha, false_and, if_false]

theorem peaksIn_zero (amp : List ℚ) (lo : Nat) : peaksIn amp lo 0 = [] := by
  simp [peaksIn]

theorem peaksIn_succ (amp : List ℚ) (lo k : Nat) :
    peaksIn amp lo (k + 1) =
      if isPeak amp lo then lo :: peaksIn amp (lo + 1) k else peaksIn amp (lo + 1) k := by
  simp only [peaksIn, List.range'_succ, List.filter_cons]
  by_cases h : isPeak amp lo <;> simp [h]

theorem forLoop_detectBody (k : Nat) : ∀ (lo : Nat) (e : ECG), 1 ≤ lo →
    (0 < k → lo + k + 1 ≤ e.amp.length) → (0 < k → lo + k ≤ e.times.length) →
    forLoop detectBody k lo e = Except.ok { e with
      peakData := e.peakData ++ (peaksIn e.amp lo k).map toInt,
      peakTime := e.peakTime ++ (peaksIn e.amp lo k).map (fun i => e.times.getD i 0) } := by
  induction k with
  | zero =>
    intro lo e _ _ _
    simp [forLoop, peaksIn_zero]
  | succ k ih =>
    intro lo e h1 h2 h3
    have h2' := h2 (Nat.succ_pos k)
    have h3' := h3 (Nat.succ_pos k)
    rw [forLoop, detectBody_eq e lo h1 (by omega) (by omega), peaksIn_succ]
    by_cases hp : isPeak e.amp lo
    · simp only [hp, if_true]
      rw [ih (lo + 1) _ (by omega) (fun _ => by simpa using by omega)
        (fun _ => by simpa using by omega)]
      simp
    · simp only [hp, if_false]
      rw [ih (lo + 1) e (by omega) (fun _ => by omega) (fun _ => by omega)]

theorem sizeSub_one_le (n : Nat) (hn : 1 ≤ n) : sizeSub n 1 + 1 ≤ n := by
  unfold sizeSub sizeMod
  omega

theorem sizeSub_one_of_lt (n : Nat) (hn : 1 ≤ n) (h : n < 2 ^ 64) : sizeSub n 1 = n - 1 := by
  unfold sizeSub sizeMod
  omega

/-- On a store with at least one sample and as many times as amplitudes, `detectPeaks`
reads inside the vectors only and appends the peaks of the scanned range. -/
theorem detectPeaks_eq (e : ECG) (hn : 1 ≤ e.amp.length) (ht : e.times.length = e.amp.length) :
    detectPeaks e = Except.ok { e with
      peakData := e.peakData ++ (peaksIn e.amp 1 (sizeSub e.amp.length 1 - 1)).map toInt,
      peakTime := e.peakTime ++
        (peaksIn e.amp 1 (sizeSub e.amp.length 1 - 1)).map (fun i => e.times.getD i 0) } := by
  have h := sizeSub_one_le e.amp.length hn
  unfold detectPeaks forRange
  exact forLoop_detectBody _ 1 e (le_refl 1) (fun _ => by omega) (fun _ => by omega)

/-! ## Lemmas on the loop of `classifyHeartRate` -/

theorem classifyBody_eq (put : ℚ → String) (e : ECG) (i : Nat) (q : Queues) (h1 : 1 ≤ i)
    (h2 : i < e.peakTime.length) :
    classifyBody put e i q = Except.ok
      (match categoryOf (pairAt e.peakTime i) with
        | Category.Slow => { q with bradycardiaResults := q.bradycardiaResults ++
            [reportLine put Category.Slow (pairAt e.peakTime i)] }
        | Category.Fast => { q with tachycardiaResults := q.tachycardiaResults ++
            [reportLine put Category.Fast (pairAt e.peakTime i)] }
        | Category.Normal => { q with normalResults := q.normalResults ++
            [reportLine put Category.Normal (pairAt e.peakTime i)] }) := by
  have hp : i - 1 < e.peakTime.length := by omega
  unfold classifyBody
  rw [vget_of_lt _ _ h2, vget_of_lt _ _ hp]
  simp only [bind, Except.bind, pure, Except.pure, categoryOf, pairAt, reportLine]
  by_cases ha : doubleSub (e.peakTime.getD i 0) (e.peakTime.getD (i - 1) 0) > 1
  · simp only [ha, if_true]
  · by_cases hb : doubleSub (e.peakTime.getD i 0) (e.peakTime.getD (i - 1) 0) < toDouble 0.6
    · simp only [ha, hb, if_true, if_false]
    · simp only [ha, hb, if_false]

theorem forLoop_classifyBody (put : ℚ → String) (e : ECG) (k : Nat) :
    ∀ (lo : Nat) (q : Queues), 1 ≤ lo → (0 < k → lo + k ≤ e.peakTime.length) →
    forLoop (classifyBody put e) k lo q = Except.ok
      { tachycardiaResults := q.tachycardiaResults ++
          linesFor put Category.Fast ((List.range' lo k).map (pairAt e.peakTime)),
        bradycardiaResults := q.bradycardiaResults ++
          linesFor put Category.Slow ((List.range' lo k).map (pairAt e.peakTime)),
        normalResults := q.normalResults ++
          linesFor put Category.Normal ((List.range' lo k).map (pairAt e.peakTime)) } := by
  induction k with
  | zero =>
    intro lo q _ _
    simp [forLoop, linesFor]
  | succ k ih =>
    intro lo q h1 h2
    have h2' := h2 (Nat.succ_pos k)
    rw [forLoop, classifyBody_eq put e lo q h1 (by omega)]
    cases hc : categoryOf (pairAt e.peakTime lo) <;>
      simp [ih (lo + 1) _ (by omega) (fun _ => by omega), linesFor, List.range'_succ,
        List.filter_cons, hc]

theorem map_pairAt_range (peakTime : List ℚ) :
    (List.range' 1 (peakTime.length - 1)).map (pairAt peakTime) = adjacentPairs peakTime := by
  apply List.ext_getElem
  · simp [adjacentPairs]
  · intro i h1 h2
    simp only [List.length_map, List.length_range'] at h1
    have ha : i < peakTime.length := by omega
    have hb : 1 + i < peakTime.length := by omega
    simp [adjacentPairs, pairAt, List.getElem_zip, List.getElem?_eq_getElem ha,
      List.getElem?_eq_getElem hb]
    congr 1
    omega

/-- `classifyHeartRate` never reads outside `peakTime`, and appends to each queue the
lines of its category for the adjacent pairs of peak times, in order. -/
theorem classifyHeartRate_eq (put : ℚ → String) (e : ECG) (q : Queues) :
    classifyHeartRate put e q = Except.ok
      { tachycardiaResults := q.tachycardiaResults ++
          linesFor put Category.Fast (adjacentPairs e.peakTime),
        bradycardiaResults := q.bradycardiaResults ++
          linesFor put Category.Slow (adjacentPairs e.peakTime),
        normalResults := q.normalResults ++
          linesFor put Category.Normal (adjacentPairs e.peakTime) } := by
  unfold classifyHeartRate forRange
  rw [forLoop_classifyBody put e _ 1 q (le_refl 1) (fun _ => by omega), map_pairAt_range]

theorem linesFor_length_sum (put : ℚ → String) (pairs : List (ℚ × ℚ)) :
    (linesFor put Category.Fast pairs).length + (linesFor put Category.Slow pairs).length +
      (linesFor put Category.Normal pairs).length = pairs.length := by
  induction pairs with
  | nil => simp [linesFor]
  | cons p rest ih =>
    simp only [linesFor, List.length_map] at ih ⊢
    cases hc : categoryOf p <;> simp [List.filter_cons, hc] <;> omega

theorem linesFor_perm (put : ℚ → String) (pairs : List (ℚ × ℚ)) :
    List.Perm (linesFor put Category.Fast pairs ++ linesFor put Category.Slow pairs ++
      linesFor put Category.Normal pairs)
      (pairs.map (fun p => reportLine put (categoryOf p) p)) := by
  induction pairs with
  | nil => simp [linesFor]
  | cons p rest ih =>
    simp only [linesFor] at ih ⊢
    cases hc : categoryOf p
    · simpa [List.filter_cons, hc] using ih
    · simp only [List.filter_cons, hc, List.map_cons, reduceCtorEq, decide_True, decide_False,
        if_true, if_false, Bool.false_eq_true]
      refine List.Perm.trans ?_ (List.Perm.cons _ ih)
      simp only [List.append_assoc, List.cons_append]
      exact List.perm_middle
    · simp only [List.filter_cons, hc, List.map_cons, reduceCtorEq, decide_True, decide_False,
        if_true, if_false, Bool.false_eq_true]
      refine List.Perm.trans ?_ (List.Perm.cons _ ih)
      exact List.perm_middle

theorem adjacentPairs_length (peakTime : List ℚ) :
    (adjacentPairs peakTime).length = peakTime.length - 1 := by
  simp [adjacentPairs]

theorem categoryOf_slow_iff (p : ℚ × ℚ) :
    categoryOf p = Category.Slow ↔ doubleSub p.2 p.1 > 1 := by
  unfold categoryOf
  split_ifs with h1 h2 <;> simp [h1]

theorem categoryOf_fast_iff (p : ℚ × ℚ) :
    categoryOf p = Category.Fast ↔
      ¬ doubleSub p.2 p.1 > 1 ∧ doubleSub p.2 p.1 < toDouble 0.6 := by
  unfold categoryOf
  split_ifs with h1 h2
  · simp [h1]
  · simp only [true_iff]
    exact ⟨h1, h2⟩
  · simp only [reduceCtorEq, false_iff, not_and]
    exact fun _ => h2

theorem categoryOf_normal_iff (p : ℚ × ℚ) :
    categoryOf p = Category.Normal ↔
      ¬ doubleSub p.2 p.1 > 1 ∧ ¬ doubleSub p.2 p.1 < toDouble 0.6 := by
  unfold categoryOf
  split_ifs with h1 h2
  · simp [h1]
  · simp only [reduceCtorEq, false_iff, not_and]
    exact fun _ hn => hn h2
  · simp only [true_iff]
    exact ⟨h1, h2⟩

/-! ## Lemmas on doubles -/

theorem roundHalfEven_of_near (q : ℚ) (m : ℤ) (h : |q - m| < 1 / 2) : roundHalfEven q = m := by
  rw [abs_lt] at h
  unfold roundHalfEven
  by_cases hm : (m : ℚ) ≤ q
  · have hf : ⌊q⌋ = m := by
      rw [Int.floor_eq_iff]
      constructor
      · exact hm
      · linarith [h.2]
    rw [hf, if_pos (by linarith [h.2])]
  · have hf : ⌊q⌋ = m - 1 := by
      rw [Int.floor_eq_iff]
      push_cast
      constructor
      · linarith [h.1]
      · linarith
    rw [hf]
    push_cast
    rw [if_neg (by linarith [h.1]), if_pos (by linarith [h.1])]
    ring

theorem log_two_eq (x : ℚ) (e : ℤ) (h1 : 2 ^ e ≤ x) (h2 : x < 2 ^ (e + 1)) :
    Int.log 2 x = e := by
  have hx : 0 < x := lt_of_lt_of_le (by positivity) h1
  apply le_antisymm
  · have := (Int.lt_zpow_iff_log_lt (b := 2) (by norm_num) hx).mp h2
    omega
  · exact (Int.zpow_le_iff_le_log (b := 2) (by norm_num) hx).mp h1

/-- The double nearest to `x` is `m * 2 ^ (e - 52)` when `x` is in the binade of `e` and
within less than half a last place of it. -/
theorem toDouble_eq (x : ℚ) (e m : ℤ) (h1 : 2 ^ e ≤ |x|) (h2 : |x| < 2 ^ (e + 1))
    (he : -1022 ≤ e) (hm : |x / 2 ^ (e - 52) - m| < 1 / 2) :
    toDouble x = m * 2 ^ (e - 52) := by
  have hq : quantumExponent x = e - 52 := by
    unfold quantumExponent
    rw [log_two_eq |x| e h1 h2, max_eq_left he]
  unfold toDouble
  rw [hq, roundHalfEven_of_near _ m hm]

theorem toDouble_zero : toDouble 0 = 0 := by
  unfold toDouble
  simp [roundHalfEven]

theorem toDouble_one : toDouble 1 = 1 := by
  rw [toDouble_eq 1 0 4503599627370496 (by norm_num) (by norm_num) (by norm_num)
    (by norm_num [abs_lt])]
  norm_num

theorem toDouble_two : toDouble 2 = 2 := by
  rw [toDouble_eq 2 1 4503599627370496 (by norm_num) (by norm_num) (by norm_num)
    (by norm_num [abs_lt])]
  norm_num

theorem toDouble_three : toDouble 3 = 3 := by
  rw [toDouble_eq 3 1 6755399441055744 (by norm_num) (by norm_num) (by norm_num)
    (by norm_num [abs_lt])]
  norm_num

theorem toDouble_half : toDouble 0.5 = 0.5 := by
  rw [toDouble_eq 0.5 (-1) 4503599627370496 (by norm_num [abs_of_pos])
    (by norm_num [abs_of_pos]) (by norm_num) (by norm_num [abs_lt])]
  norm_num

theorem toDouble_point_six : toDouble 0.6 = 5404319552844595 / 9007199254740992 := by
  rw [toDouble_eq 0.6 (-1) 5404319552844595 (by norm_num [abs_of_pos])
    (by norm_num [abs_of_pos]) (by norm_num) (by norm_num [abs_lt])]
  norm_num

theorem toDouble_point_six_idem :
    toDouble (5404319552844595 / 9007199254740992) = 5404319552844595 / 9007199254740992 := by
  rw [toDouble_eq _ (-1) 5404319552844595 (by norm_num [abs_of_pos])
    (by norm_num [abs_of_pos]) (by norm_num) (by norm_num [abs_lt])]
  norm_num

theorem toDouble_point_seven : toDouble 0.7 = 3152519739159347 / 4503599627370496 := by
  rw [toDouble_eq 0.7 (-1) 6305039478318694 (by norm_num [abs_of_pos])
    (by norm_num [abs_of_pos]) (by norm_num) (by norm_num [abs_lt])]
  norm_num

theorem toDouble_point_seven_idem :
    toDouble (3152519739159347 / 4503599627370496) = 3152519739159347 / 4503599627370496 := by
  rw [toDouble_eq _ (-1) 6305039478318694 (by norm_num [abs_of_pos])
    (by norm_num [abs_of_pos]) (by norm_num) (by norm_num [abs_lt])]
  norm_num

/-! ## Lemmas on the report files -/

theorem getline_length (cs : List Char) (line : String) (unread : List Char)
    (h : getline cs = some (line, unread)) : unread.length < cs.length := by
  cases cs with
  | nil => simp [getline] at h
  | cons c t =>
    simp only [getline, Option.some.injEq, Prod.mk.injEq] at h
    rw [← h.2]
    have h2 := congrArg List.length (List.takeWhile_append_dropWhile (fun c => c != newline) (c :: t))
    simp only [List.length_append, List.length_cons, List.length_drop] at h2 ⊢
    omega

/-- Any count of iterations that is at least the count of unread characters gives the same
lines: the loop has ended before the count runs out. -/
theorem getlineLoop_fuel (k1 : Nat) : ∀ (k2 : Nat) (cs : List Char) (results : List String),
    cs.length ≤ k1 → cs.length ≤ k2 → getlineLoop k1 cs results = getlineLoop k2 cs results := by
  induction k1 with
  | zero =>
    intro k2 cs results h1 _
    have hcs : cs = [] := List.length_eq_zero.mp (Nat.le_zero.mp h1)
    subst hcs
    cases k2 <;> simp [getlineLoop, getline]
  | succ k1 ih =>
    intro k2 cs results h1 h2
    cases k2 with
    | zero =>
      have hcs : cs = [] := List.length_eq_zero.mp (Nat.le_zero.mp h2)
      subst hcs
      simp [getlineLoop, getline]
    | succ k2 =>
      simp only [getlineLoop]
      cases hg : getline cs with
      | none => rfl
      | some r =>
        obtain ⟨line, unread⟩ := r
        have hl := getline_length cs line unread hg
        exact ih k2 unread _ (by omega) (by omega)

theorem getlineLoop_append (k : Nat) : ∀ (cs : List Char) (results : List String),
    getlineLoop k cs results = results ++ getlineLoop k cs [] := by
  induction k with
  | zero => intro cs results; simp [getlineLoop]
  | succ k ih =>
    intro cs results
    simp only [getlineLoop]
    cases hg : getline cs with
    | none => simp
    | some r =>
      obtain ⟨line, unread⟩ := r
      simp only []
      rw [ih unread (results ++ [line]), ih unread ([] ++ [line])]
      simp

theorem linesOf_append (text : String) (results : List String) :
    linesOf text results = results ++ linesOf text [] :=
  getlineLoop_append _ _ _

theorem writeLoop_data (lines : List String) : ∀ out : String,
    (writeLoop lines out).data = out.data ++ textOf lines := by
  induction lines with
  | nil => intro out; simp [writeLoop, textOf]
  | cons l rest ih =>
    intro out
    simp [writeLoop, textOf, ih]

theorem getline_textOf (line : String) (rest : List Char) (h : oneLine line) :
    getline (line.data ++ newline :: rest) = some (line, rest) := by
  have hp : ∀ a ∈ line.data, (fun c => c != newline) a = true := by
    intro a ha
    simp only [bne_iff_ne, ne_eq]
    intro hEq
    exact h (hEq ▸ ha)
  have ht : (line.data ++ newline :: rest).takeWhile (fun c => c != newline) = line.data := by
    rw [List.takeWhile_append_of_pos hp]
    simp
  have hd : (line.data ++ newline :: rest).dropWhile (fun c => c != newline) = newline :: rest := by
    rw [List.dropWhile_append_of_pos hp]
    simp
  cases hcs : line.data ++ newline :: rest with
  | nil => simp at hcs
  | cons c t =>
    simp only [getline]
    rw [← hcs, ht, hd]
    rfl

theorem getlineLoop_textOf (lines : List String) : ∀ (k : Nat) (results : List String),
    (∀ l ∈ lines, oneLine l) → (textOf lines).length ≤ k →
    getlineLoop k (textOf lines) results = results ++ lines := by
  induction lines with
  | nil =>
    intro k results _ _
    cases k <;> simp [getlineLoop, getline, textOf]
  | cons l rest ih =>
    intro k results hl hk
    cases k with
    | zero => simp [textOf] at hk
    | succ k =>
      simp only [textOf, List.length_append, List.length_cons] at hk
      simp only [getlineLoop, textOf]
      rw [getline_textOf l (textOf rest) (hl l (List.mem_cons_self _ _))]
      simp only []
      rw [ih k _ (fun x hx => hl x (List.mem_cons_of_mem _ hx)) (by omega)]
      simp

/-- Reading back what the write loop wrote gives the written lines, when none of them
holds a newline. -/
theorem linesOf_writeLoop (lines results : List String) (h : ∀ l ∈ lines, oneLine l) :
    linesOf (writeLoop lines "") results = results ++ lines := by
  unfold linesOf
  rw [writeLoop_data]
  simpa using getlineLoop_textOf lines _ results h (le_refl _)

theorem getline_oneLine (cs : List Char) (line : String) (unread : List Char)
    (h : getline cs = some (line, unread)) : oneLine line := by
  cases cs with
  | nil => simp [getline] at h
  | cons c t =>
    simp only [getline, Option.some.injEq, Prod.mk.injEq] at h
    rw [← h.1]
    intro hmem
    have := List.mem_takeWhile_imp hmem
    simp at this

theorem getlineLoop_oneLine (k : Nat) : ∀ (cs : List Char) (results : List String),
    (∀ l ∈ results, oneLine l) → ∀ l ∈ getlineLoop k cs results, oneLine l := by
  induction k with
  | zero => intro cs results h; simpa [getlineLoop] using h
  | succ k ih =>
    intro cs results h
    simp only [getlineLoop]
    cases hg : getline cs with
    | none => simpa using h
    | some r =>
      obtain ⟨line, unread⟩ := r
      simp only []
      apply ih
      intro l hl
      rcases List.mem_append.mp hl with h1 | h1
      · exact h l h1
      · rw [List.mem_singleton.mp h1]
        exact getline_oneLine cs line unread hg

theorem linesOf_oneLine (text : String) : ∀ l ∈ linesOf text [], oneLine l :=
  getlineLoop_oneLine _ _ [] (by simp)

theorem readDetectionResults_eq (w : World) (path : String) (results : List String) :
    readDetectionResults w path results =
      ({ w with cerr := w.cerr ++ openErrors w path }, results ++ linesRead w path) := by
  unfold readDetectionResults openErrors linesRead
  cases h : w.files path with
  | none => simp
  | some text => simp [linesOf_append text results]

/-- What `combineFiles` leaves when the destination opens: the destination holds the lines
read from the first path, the separator and the lines read from the second path; `cerr`
has one more line for each source that did not open; no other file is changed. -/
theorem combineFiles_eq (w : World) (resultFile person1File person2File : String)
    (hw : w.canWrite resultFile = true) :
    combineFiles w resultFile person1File person2File =
      { files := fun p => if p = resultFile then
          some (writeLoop (linesRead w person1File ++ [separator] ++ linesRead w person2File) "")
          else w.files p,
        canWrite := w.canWrite,
        cout := w.cout ++ ["Results written to " ++ resultFile],
        cerr := w.cerr ++ openErrors w person1File ++ openErrors w person2File } := by
  unfold combineFiles
  simp only [readDetectionResults_eq, List.nil_append]
  unfold writeDetectionResults
  simp [hw, linesRead, openErrors]

/-! ## Lemmas on the recorded peaks -/

theorem mem_peaksIn (amp : List ℚ) (lo k i : Nat) :
    i ∈ peaksIn amp lo k ↔ lo ≤ i ∧ i < lo + k ∧ isPeak amp i := by
  simp [peaksIn, and_assoc]

theorem peaksIn_pairwise (amp : List ℚ) (lo k : Nat) :
    List.Pairwise (fun i j => i < j) (peaksIn amp lo k) :=
  List.Pairwise.filter _ (List.pairwise_lt_range' lo k)

theorem peaksIn_append (amp : List ℚ) (lo k1 k2 : Nat) :
    peaksIn amp lo (k1 + k2) = peaksIn amp lo k1 ++ peaksIn amp (lo + k1) k2 := by
  unfold peaksIn
  rw [← List.filter_append, List.range'_append_1, Nat.add_comm k2 k1]

theorem peaksIn_eq_nil (amp : List ℚ) (lo k : Nat)
    (h : ∀ i, lo ≤ i → i < lo + k → ¬ isPeak amp i) : peaksIn amp lo k = [] := by
  apply List.eq_nil_iff_forall_not_mem.mpr
  intro i hi
  rw [mem_peaksIn] at hi
  exact h i hi.1 hi.2.1 hi.2.2

theorem toInt_of_lt (i : Nat) (h : i < 2 ^ 31) : toInt i = (i : Int) := by
  unfold toInt
  split <;> omega

theorem toInt_ne_zero (i : Nat) (h1 : 1 ≤ i) (h2 : i < 2 ^ 32) : toInt i ≠ 0 := by
  unfold toInt
  split <;> omega

theorem toInt_eq_natCast (i j : Nat) (h : i < 2 ^ 32) (hj : toInt i = (j : Int)) : i = j := by
  unfold toInt at hj
  split at hj <;> omega

/-- With one or two samples the loop body does not run: the store is returned as it is. -/
theorem detectPeaks_one_or_two (e : ECG) (h : e.amp.length = 1 ∨ e.amp.length = 2) :
    detectPeaks e = Except.ok e := by
  unfold detectPeaks forRange
  have hk : sizeSub e.amp.length 1 - 1 = 0 := by
    unfold sizeSub sizeMod
    omega
  rw [hk]
  rfl

/-! ## Signals with one or two pulses -/

theorem getD_pulses (n a b i : Nat) (ha : a < n) (hb : b < n) :
    (pulses n a b).getD i 0 = if i = a ∨ i = b then 1 else 0 := by
  unfold pulses
  by_cases hi : i < n
  · simp [List.getD_eq_getElem?_getD, List.getElem?_map, List.getElem?_range hi]
  · have h1 : i ≠ a := by omega
    have h2 : i ≠ b := by omega
    simp [List.getD_eq_getElem?_getD, List.getElem?_eq_none, h1, h2, Nat.le_of_not_lt hi]

theorem getD_times (n i : Nat) (hi : i < n) :
    (List.map (fun i : Nat => (i : ℚ)) (List.range n)).getD i 0 = (i : ℚ) := by
  rw [List.getD_eq_getElem?_getD, List.getElem?_map, List.getElem?_range hi]
  rfl

theorem times_length (n : Nat) :
    (List.map (fun i : Nat => (i : ℚ)) (List.range n)).length = n := by
  rw [List.length_map, List.length_range]

theorem isPeak_pulses (n a b i : Nat) (h1 : 1 ≤ a) (hab : a = b ∨ a + 2 ≤ b) (hb : b < n) :
    isPeak (pulses n a b) i ↔ i = a ∨ i = b := by
  have ha : a < n := by omega
  unfold isPeak threshold
  rw [getD_pulses n a b i ha hb, getD_pulses n a b (i - 1) ha hb,
    getD_pulses n a b (i + 1) ha hb]
  by_cases hi : i = a ∨ i = b
  · have hp : ¬ (i - 1 = a ∨ i - 1 = b) := by omega
    have hs : ¬ (i + 1 = a ∨ i + 1 = b) := by omega
    simp only [hi, hp, hs, if_true, if_false, iff_true]
    norm_num
  · simp only [hi, if_false, iff_false]
    norm_num

theorem peaksIn_single (n a : Nat) (h1 : 1 ≤ a) (h2 : a + 2 ≤ n) :
    peaksIn (pulses n a a) 1 (n - 2) = [a] := by
  have hmem : ∀ x, x ∈ peaksIn (pulses n a a) 1 (n - 2) ↔ x ∈ [a] := by
    intro x
    rw [mem_peaksIn, isPeak_pulses n a a x h1 (Or.inl rfl) (by omega)]
    simp only [List.mem_singleton, or_self]
    omega
  have hs1 : List.Sorted (fun i j => i < j) (peaksIn (pulses n a a) 1 (n - 2)) :=
    peaksIn_pairwise _ _ _
  have hs2 : List.Sorted (fun i j => i < j) [a] := List.sorted_singleton a
  exact List.eq_of_perm_of_sorted
    ((List.perm_ext_iff_of_nodup hs1.nodup hs2.nodup).mpr hmem) hs1 hs2

theorem peaksIn_double (n a b : Nat) (h1 : 1 ≤ a) (hab : a + 2 ≤ b) (h2 : b + 2 ≤ n) :
    peaksIn (pulses n a b) 1 (n - 2) = [a, b] := by
  have hmem : ∀ x, x ∈ peaksIn (pulses n a b) 1 (n - 2) ↔ x ∈ [a, b] := by
    intro x
    rw [mem_peaksIn, isPeak_pulses n a b x h1 (Or.inr hab) (by omega)]
    simp only [List.mem_cons, List.mem_singleton, List.not_mem_nil, or_false]
    omega
  have hs1 : List.Sorted (fun i j => i < j) (peaksIn (pulses n a b) 1 (n - 2)) :=
    peaksIn_pairwise _ _ _
  have hs2 : List.Sorted (fun i j => i < j) [a, b] := by
    simp [List.Sorted]
    omega
  exact List.eq_of_perm_of_sorted
    ((List.perm_ext_iff_of_nodup hs1.nodup hs2.nodup).mpr hmem) hs1 hs2

theorem pulses_length (n a b : Nat) : (pulses n a b).length = n := by
  simp [pulses]

theorem pulseStore_amp_length (n a b : Nat) : (pulseStore n a b).amp.length = n :=
  pulses_length n a b

theorem pulseStore_times_length (n a b : Nat) : (pulseStore n a b).times.length = n :=
  times_length n

theorem pulseStore_isPeak (n a b : Nat) (h1 : 1 ≤ a) (hab : a = b ∨ a + 2 ≤ b) (hb : b < n) :
    isPeak (pulseStore n a b).amp b :=
  (isPeak_pulses n a b b h1 hab hb).mpr (Or.inr rfl)

theorem pulseStore_getD (n a b i : Nat) (ha : a < n) (hb : b < n) :
    (pulseStore n a b).amp.getD i 0 = if i = a ∨ i = b then 1 else 0 :=
  getD_pulses n a b i ha hb

/-- A signal with one pulse: `detectPeaks` records the pulse, as an `int`. -/
theorem detectPeaks_single (n a : Nat) (h1 : 1 ≤ a) (h2 : a + 2 ≤ n) (hn : n < 2 ^ 64) :
    detectPeaks (pulseStore n a a) =
      Except.ok { pulseStore n a a with peakData := [toInt a], peakTime := [(a : ℚ)] } := by
  have hlen : (pulseStore n a a).amp.length = n := pulses_length n a a
  rw [detectPeaks_eq _ (by rw [hlen]; omega) (by rw [hlen]; exact times_length n)]
  rw [hlen, sizeSub_one_of_lt n (by omega) hn]
  have hp : peaksIn (pulseStore n a a).amp 1 (n - 1 - 1) = [a] := peaksIn_single n a h1 h2
  rw [hp]
  simp only [pulseStore, List.map_cons, List.map_nil, List.nil_append,
    getD_times n a (by omega)]

/-- A signal with two pulses: `detectPeaks` records both, in this order, as `int`s. -/
theorem detectPeaks_double (n a b : Nat) (h1 : 1 ≤ a) (hab : a + 2 ≤ b) (h2 : b + 2 ≤ n)
    (hn : n < 2 ^ 64) :
    detectPeaks (pulseStore n a b) =
      Except.ok { pulseStore n a b with
        peakData := [toInt a, toInt b], peakTime := [(a : ℚ), (b : ℚ)] } := by
  have hlen : (pulseStore n a b).amp.length = n := pulses_length n a b
  rw [detectPeaks_eq _ (by rw [hlen]; omega) (by rw [hlen]; exact times_length n)]
  rw [hlen, sizeSub_one_of_lt n (by omega) hn]
  have hp : peaksIn (pulseStore n a b).amp 1 (n - 1 - 1) = [a, b] := peaksIn_double n a b h1 hab h2
  rw [hp]
  simp only [pulseStore, List.map_cons, List.map_nil, List.nil_append,
    getD_times n a (by omega), getD_times n b (by omega)]

/-! ## Order of the recorded peaks -/

theorem getD_le_of_pairwise (times : List ℚ) (h : List.Pairwise (fun a b => a ≤ b) times)
    (i j : Nat) (hij : i < j) (hj : j < times.length) : times.getD i 0 ≤ times.getD j 0 := by
  have hi : i < times.length := by omega
  rw [List.getD_eq_getElem _ _ hi, List.getD_eq_getElem _ _ hj]
  exact List.pairwise_iff_getElem.mp h i j hi hj hij

theorem adjacentPairs_le (l : List ℚ) (h : List.Pairwise (fun a b => a ≤ b) l) :
    ∀ p ∈ adjacentPairs l, p.1 ≤ p.2 := by
  induction l with
  | nil => intro p hp; simp [adjacentPairs] at hp
  | cons a t ih =>
    cases t with
    | nil => intro p hp; simp [adjacentPairs] at hp
    | cons b t' =>
      intro p hp
      simp only [adjacentPairs, List.tail_cons, List.zip_cons_cons, List.mem_cons] at hp
      rcases hp with rfl | hp
      · exact (List.pairwise_cons.mp h).1 b (List.mem_cons_self _ _)
      · exact ih (List.pairwise_cons.mp h).2 p (by simpa [adjacentPairs] using hp)

theorem peakTimes_pairwise (e : ECG) (hlen : e.times.length = e.amp.length)
    (hn : 1 ≤ e.amp.length) (hpw : List.Pairwise (fun a b => a ≤ b) e.times) :
    List.Pairwise (fun a b => a ≤ b)
      ((peaksIn e.amp 1 (sizeSub e.amp.length 1 - 1)).map (fun i => e.times.getD i 0)) := by
  have hs := sizeSub_one_le e.amp.length hn
  rw [List.pairwise_map]
  refine List.Pairwise.imp_of_mem ?_ (peaksIn_pairwise e.amp 1 _)
  intro a b _ hb hab
  rw [mem_peaksIn] at hb
  have hb1 := hb.2.1
  have hlt : b < e.times.length := by omega
  exact getD_le_of_pairwise e.times hpw a b hab hlt

theorem peakIndices_pairwise (amp : List ℚ) (hsmall : amp.length ≤ 2 ^ 31 + 1) :
    List.Pairwise (fun x y => x < y) ((peaksIn amp 1 (amp.length - 1 - 1)).map toInt) := by
  rw [List.pairwise_map]
  refine List.Pairwise.imp_of_mem ?_ (peaksIn_pairwise amp 1 (amp.length - 1 - 1))
  intro a b ha hb hab
  rw [mem_peaksIn] at ha hb
  have ha1 := ha.2.1
  have hb1 := hb.2.1
  rw [toInt_of_lt a (by omega), toInt_of_lt b (by omega)]
  exact_mod_cast hab

theorem adjacentPairs_nonneg (l : List ℚ) (h : List.Pairwise (fun a b => a ≤ b) l) :
    ∀ p ∈ adjacentPairs l, 0 ≤ p.2 - p.1 := by
  intro p hp
  exact sub_nonneg.mpr (adjacentPairs_le l h p hp)

/-! ## One run of `detectPeaks`, field by field -/

theorem detectPeaks_found (e : ECG) (hn : 1 ≤ e.amp.length)
    (ht : e.times.length = e.amp.length) :
    detectPeaks e = Except.ok { e with
      peakData := e.peakData ++ (foundPeaks e.amp).map toInt,
      peakTime := e.peakTime ++ (foundPeaks e.amp).map (fun i => e.times.getD i 0) } :=
  detectPeaks_eq e hn ht

theorem detectPeaks_fields (e : ECG) (hn : 1 ≤ e.amp.length)
    (ht : e.times.length = e.amp.length) :
    ∃ e', detectPeaks e = Except.ok e' ∧ e'.times = e.times ∧ e'.amp = e.amp ∧
      e'.peakData = e.peakData ++ (foundPeaks e.amp).map toInt ∧
      e'.peakTime = e.peakTime ++ (foundPeaks e.amp).map (fun i => e.times.getD i 0) :=
  ⟨_, detectPeaks_found e hn ht, rfl, rfl, rfl, rfl⟩

theorem ECG_ext (a b : ECG) (h1 : a.times = b.times) (h2 : a.amp = b.amp)
    (h3 : a.peakData = b.peakData) (h4 : a.peakTime = b.peakTime) : a = b := by
  cases a
  cases b
  simp only at h1 h2 h3 h4
  subst h1 h2 h3 h4
  rfl

theorem mem_foundPeaks (amp : List ℚ) (i : Nat) :
    i ∈ foundPeaks amp ↔ 1 ≤ i ∧ i < 1 + (sizeSub amp.length 1 - 1) ∧ isPeak amp i :=
  mem_peaksIn amp 1 _ i

/-! ## Peak detection: the claims -/

/-- C1 (the code fails on the empty signal): with no amplitude sample the loop bound
`amp.size() - 1` is `2 ^ 64 - 1`, so the loop is entered with `i = 1` and its first test
reads `amp[1]`, outside the empty vector. -/
theorem detectPeaks_empty_signal (times : List ℚ) (peakData : List Int) (peakTime : List ℚ) :
    sizeSub 0 1 = 2 ^ 64 - 1 ∧
    detectPeaks ⟨times, [], peakData, peakTime⟩ = Except.error ⟨1, 0⟩ := by
  have hb : sizeSub 0 1 = 2 ^ 64 - 1 := by
    norm_num [sizeSub, sizeMod]
  refine ⟨hb, ?_⟩
  unfold detectPeaks forRange
  have hk : sizeSub ([] : List ℚ).length 1 - 1 = (2 ^ 64 - 3) + 1 := by
    rw [List.length_nil, hb]
    norm_num
  rw [hk, forLoop]
  simp [detectBody, vget, bind, Except.bind]

/-- C2 (amended: at most `2 ^ 31 + 1` samples): on a store with `1 ≤ n ≤ 2 ^ 31 + 1`
samples, as many times as amplitudes and an empty peak list, `detectPeaks` ends without a
read outside the vectors and the values in `peakData` are exactly the indices `i` with
`1 ≤ i ≤ n - 2`, `amp[i] > 0.1`, `amp[i] > amp[i - 1]` and `amp[i] > amp[i + 1]`. -/
theorem detectPeaks_peakData_iff (e : ECG) (hlen : e.times.length = e.amp.length)
    (hn : 1 ≤ e.amp.length) (hsmall : e.amp.length ≤ 2 ^ 31 + 1) (hempty : e.peakData = []) :
    ∃ e', detectPeaks e = Except.ok e' ∧
      ∀ x : Int, x ∈ e'.peakData ↔
        ∃ i : Nat, x = (i : Int) ∧ 1 ≤ i ∧ i + 2 ≤ e.amp.length ∧
          e.amp.getD i 0 > 0.1 ∧ e.amp.getD i 0 > e.amp.getD (i - 1) 0 ∧
          e.amp.getD i 0 > e.amp.getD (i + 1) 0 := by
  refine ⟨_, detectPeaks_eq e hn hlen, ?_⟩
  have hs : sizeSub e.amp.length 1 = e.amp.length - 1 :=
    sizeSub_one_of_lt _ hn (by omega)
  intro x
  simp only [hempty, List.nil_append, List.mem_map, mem_peaksIn, hs]
  constructor
  · rintro ⟨i, ⟨h1, h2, hp⟩, rfl⟩
    exact ⟨i, toInt_of_lt i (by omega), h1, by omega, hp⟩
  · rintro ⟨i, rfl, h1, h2, hp⟩
    exact ⟨i, ⟨h1, by omega, hp⟩, toInt_of_lt i (by omega)⟩

/-- C2, the scenario of the specification: the samples
`(0,0), (1,0.5), (2,0.05), (3,0.6), (4,0.05)` give the peak indices 1 and 3 (times 1 and 3). -/
theorem detectPeaks_peakData_iff_witness :
    detectPeaks ⟨[0, 1, 2, 3, 4], [0, 0.5, 0.05, 0.6, 0.05], [], []⟩ =
        Except.ok ⟨[0, 1, 2, 3, 4], [0, 0.5, 0.05, 0.6, 0.05], [1, 3], [1, 3]⟩ ∧
      ∃ e', detectPeaks ⟨[0, 1, 2, 3, 4], [0, 0.5, 0.05, 0.6, 0.05], [], []⟩ = Except.ok e' ∧
        ∀ x : Int, x ∈ e'.peakData ↔
          ∃ i : Nat, x = (i : Int) ∧ 1 ≤ i ∧ i + 2 ≤ 5 ∧
            ([0, 0.5, 0.05, 0.6, 0.05] : List ℚ).getD i 0 > 0.1 ∧
            ([0, 0.5, 0.05, 0.6, 0.05] : List ℚ).getD i 0 >
              ([0, 0.5, 0.05, 0.6, 0.05] : List ℚ).getD (i - 1) 0 ∧
            ([0, 0.5, 0.05, 0.6, 0.05] : List ℚ).getD i 0 >
              ([0, 0.5, 0.05, 0.6, 0.05] : List ℚ).getD (i + 1) 0 :=
  ⟨by
    norm_num [detectPeaks, forRange, forLoop, sizeSub, sizeMod, detectBody, vget, bind,
      Except.bind, pure, Except.pure, threshold, toInt],
   detectPeaks_peakData_iff ⟨[0, 1, 2, 3, 4], [0, 0.5, 0.05, 0.6, 0.05], [], []⟩ rfl
    (by decide) (by decide) rfl⟩

/-- C2 fails beyond `2 ^ 31 + 1` samples.  Take `2 ^ 31 + 2` samples, all of amplitude 0
except sample `2 ^ 31` of amplitude 1, and an empty peak list: the index `2 ^ 31` is in
range and passes the three tests, but `peakData`, a `vector<int>`, receives
`-2147483648` and does not hold `2 ^ 31`. -/
theorem detectPeaks_peakData_wraps :
    (pulseStore (2 ^ 31 + 2) (2 ^ 31) (2 ^ 31)).times.length =
        (pulseStore (2 ^ 31 + 2) (2 ^ 31) (2 ^ 31)).amp.length ∧
      (pulseStore (2 ^ 31 + 2) (2 ^ 31) (2 ^ 31)).amp.length = 2 ^ 31 + 2 ∧
      (pulseStore (2 ^ 31 + 2) (2 ^ 31) (2 ^ 31)).peakData = [] ∧
      (∃ e', detectPeaks (pulseStore (2 ^ 31 + 2) (2 ^ 31) (2 ^ 31)) = Except.ok e' ∧
        e'.peakData = [-2147483648] ∧ ((2 ^ 31 : Nat) : Int) ∉ e'.peakData) ∧
      (pulseStore (2 ^ 31 + 2) (2 ^ 31) (2 ^ 31)).amp.getD (2 ^ 31) 0 > 0.1 ∧
      (pulseStore (2 ^ 31 + 2) (2 ^ 31) (2 ^ 31)).amp.getD (2 ^ 31) 0 >
        (pulseStore (2 ^ 31 + 2) (2 ^ 31) (2 ^ 31)).amp.getD (2 ^ 31 - 1) 0 ∧
      (pulseStore (2 ^ 31 + 2) (2 ^ 31) (2 ^ 31)).amp.getD (2 ^ 31) 0 >
        (pulseStore (2 ^ 31 + 2) (2 ^ 31) (2 ^ 31)).amp.getD (2 ^ 31 + 1) 0 := by
  have hlen := pulseStore_amp_length (2 ^ 31 + 2) (2 ^ 31) (2 ^ 31)
  have htimes := pulseStore_times_length (2 ^ 31 + 2) (2 ^ 31) (2 ^ 31)
  have hpk := pulseStore_isPeak (2 ^ 31 + 2) (2 ^ 31) (2 ^ 31) (by norm_num) (Or.inl rfl)
    (by norm_num)
  have hw : toInt (2 ^ 31) = -2147483648 := by decide
  refine ⟨htimes.trans hlen.symm, hlen, rfl, ⟨_, detectPeaks_single (2 ^ 31 + 2) (2 ^ 31)
    (by norm_num) (le_refl _) (by norm_num), ?_, ?_⟩, hpk⟩
  · rw [hw]
  · rw [hw]
    show ((2 ^ 31 : Nat) : Int) ∉ [-2147483648]
    norm_num

/-- C8 (amended: between 1 and `2 ^ 32 + 1` samples): on a store with
`1 ≤ n ≤ 2 ^ 32 + 1` samples and as many times as amplitudes, `detectPeaks` ends without
a read outside the vectors and none of the values it appends to `peakData` is 0 or
`n - 1`. -/
theorem detectPeaks_boundary (e : ECG) (hlen : e.times.length = e.amp.length)
    (hn : 1 ≤ e.amp.length) (hsmall : e.amp.length ≤ 2 ^ 32 + 1) :
    ∃ e' recorded, detectPeaks e = Except.ok e' ∧ e'.peakData = e.peakData ++ recorded ∧
      ∀ x ∈ recorded, x ≠ 0 ∧ x ≠ (e.amp.length : Int) - 1 := by
  refine ⟨_, _, detectPeaks_eq e hn hlen, rfl, ?_⟩
  have hs : sizeSub e.amp.length 1 = e.amp.length - 1 :=
    sizeSub_one_of_lt _ hn (by omega)
  intro x hx
  simp only [List.mem_map, mem_peaksIn, hs] at hx
  obtain ⟨i, ⟨h1, h2, _⟩, rfl⟩ := hx
  refine ⟨toInt_ne_zero i h1 (by omega), ?_⟩
  unfold toInt
  split <;> omega

/-- C8, an instance: the scenario signal of five samples records the indices 1 and 3,
neither of which is 0 or 4. -/
theorem detectPeaks_boundary_witness :
    ∃ e' recorded,
      detectPeaks ⟨[0, 1, 2, 3, 4], [0, 0.5, 0.05, 0.6, 0.05], [], []⟩ = Except.ok e' ∧
      e'.peakData = [] ++ recorded ∧ ∀ x ∈ recorded, x ≠ 0 ∧ x ≠ ((5 : Nat) : Int) - 1 :=
  detectPeaks_boundary ⟨[0, 1, 2, 3, 4], [0, 0.5, 0.05, 0.6, 0.05], [], []⟩ rfl
    (by decide) (by decide)

/-- C8 fails beyond `2 ^ 32 + 1` samples.  Take `2 ^ 32 + 2` samples, all of amplitude 0
except sample `2 ^ 32` of amplitude 1: the value recorded for that peak is `2 ^ 32` as an
`int`, which is 0. -/
theorem detectPeaks_boundary_wraps :
    ∃ e', detectPeaks (pulseStore (2 ^ 32 + 2) (2 ^ 32) (2 ^ 32)) = Except.ok e' ∧
      e'.peakData = [0] ∧ (0 : Int) ∈ e'.peakData := by
  have hw : toInt (2 ^ 32) = 0 := by decide
  refine ⟨_, detectPeaks_single (2 ^ 32 + 2) (2 ^ 32) (by norm_num) (le_refl _)
    (by norm_num), ?_, ?_⟩
  · rw [hw]
  · rw [hw]
    exact List.mem_singleton.mpr rfl

/-- C9 (amended: at most `2 ^ 32 + 1` samples): on a store with at most `2 ^ 32 + 1`
samples and as many times as amplitudes, if `amp[i] = amp[i + 1]` for two samples `i` and
`i + 1` of the signal, then `detectPeaks` ends without a read outside the vectors and
appends neither `i` nor `i + 1` to `peakData`. -/
theorem detectPeaks_no_tie (e : ECG) (hlen : e.times.length = e.amp.length)
    (hsmall : e.amp.length ≤ 2 ^ 32 + 1) (i : Nat) (hi : i + 1 < e.amp.length)
    (heq : e.amp.getD i 0 = e.amp.getD (i + 1) 0) :
    ∃ e' recorded, detectPeaks e = Except.ok e' ∧ e'.peakData = e.peakData ++ recorded ∧
      (i : Int) ∉ recorded ∧ (i : Int) + 1 ∉ recorded := by
  refine ⟨_, _, detectPeaks_eq e (by omega) hlen, rfl, ?_, ?_⟩
  · intro hx
    simp only [List.mem_map, mem_peaksIn] at hx
    obtain ⟨j, ⟨_, h2, hp⟩, hj⟩ := hx
    have hs := sizeSub_one_le e.amp.length (by omega)
    have hji : j = i := toInt_eq_natCast j i (by omega) hj
    subst hji
    have := hp.2.2
    rw [heq] at this
    exact lt_irrefl _ this
  · intro hx
    simp only [List.mem_map, mem_peaksIn] at hx
    obtain ⟨j, ⟨_, h2, hp⟩, hj⟩ := hx
    have hs := sizeSub_one_le e.amp.length (by omega)
    have hji : j = i + 1 := toInt_eq_natCast j (i + 1) (by omega) (by rw [hj]; push_cast; rfl)
    subst hji
    have := hp.2.1
    rw [Nat.add_sub_cancel, heq] at this
    exact lt_irrefl _ this

/-- C9, an instance: in `0, 0.5, 0.5, 0.2` the samples 1 and 2 are equal and neither is
recorded. -/
theorem detectPeaks_no_tie_witness :
    ∃ e' recorded, detectPeaks ⟨[0, 1, 2, 3], [0, 0.5, 0.5, 0.2], [], []⟩ = Except.ok e' ∧
      e'.peakData = [] ++ recorded ∧ ((1 : Nat) : Int) ∉ recorded ∧
      ((1 : Nat) : Int) + 1 ∉ recorded :=
  detectPeaks_no_tie ⟨[0, 1, 2, 3], [0, 0.5, 0.5, 0.2], [], []⟩ rfl (by decide) 1 (by decide)
    (by norm_num [List.getD])

/-- C9 fails beyond `2 ^ 32 + 1` samples.  Take `2 ^ 32 + 2` samples, all of amplitude 0
except sample `2 ^ 32` of amplitude 1: the samples 0 and 1 are equal, and the value
recorded for the peak is `2 ^ 32` as an `int`, which is the index 0. -/
theorem detectPeaks_no_tie_wraps :
    0 + 1 < (pulseStore (2 ^ 32 + 2) (2 ^ 32) (2 ^ 32)).amp.length ∧
      (pulseStore (2 ^ 32 + 2) (2 ^ 32) (2 ^ 32)).amp.getD 0 0 =
        (pulseStore (2 ^ 32 + 2) (2 ^ 32) (2 ^ 32)).amp.getD (0 + 1) 0 ∧
      ∃ e', detectPeaks (pulseStore (2 ^ 32 + 2) (2 ^ 32) (2 ^ 32)) = Except.ok e' ∧
        ((0 : Nat) : Int) ∈ e'.peakData := by
  have hw : toInt (2 ^ 32) = 0 := by decide
  refine ⟨?_, ?_, _, detectPeaks_single (2 ^ 32 + 2) (2 ^ 32) (by norm_num) (le_refl _)
    (by norm_num), ?_⟩
  · rw [pulseStore_amp_length]
    norm_num
  · rw [pulseStore_getD _ _ _ _ (by norm_num) (by norm_num),
      pulseStore_getD _ _ _ _ (by norm_num) (by norm_num)]
    norm_num
  · rw [hw]
    exact List.mem_singleton.mpr rfl

/-- C10 (amended: the order of the indices holds for at most `2 ^ 31 + 1` samples): on a
store with `n ≥ 1` samples, as many times as amplitudes and an empty peak list,
`detectPeaks` ends without a read outside the vectors; if `n ≤ 2 ^ 31 + 1` the values of
`peakData` are strictly increasing; and if the sample times are non-decreasing, the peak
times are non-decreasing, so that every interval between adjacent peaks is at least 0. -/
theorem detectPeaks_increasing (e : ECG) (hlen : e.times.length = e.amp.length)
    (hn : 1 ≤ e.amp.length) (hdata : e.peakData = []) (htime : e.peakTime = []) :
    ∃ e', detectPeaks e = Except.ok e' ∧
      (e.amp.length ≤ 2 ^ 31 + 1 → List.Pairwise (fun x y => x < y) e'.peakData) ∧
      (List.Chain' (fun a b => a ≤ b) e.times →
        List.Pairwise (fun a b => a ≤ b) e'.peakTime ∧
        ∀ p ∈ adjacentPairs e'.peakTime, 0 ≤ p.2 - p.1) := by
  refine ⟨_, detectPeaks_eq e hn hlen, ?_, ?_⟩
  · intro hsmall
    have hs : sizeSub e.amp.length 1 = e.amp.length - 1 :=
      sizeSub_one_of_lt _ hn (by omega)
    show List.Pairwise (fun x y => x < y)
      (e.peakData ++ (peaksIn e.amp 1 (sizeSub e.amp.length 1 - 1)).map toInt)
    rw [hdata, List.nil_append, hs]
    exact peakIndices_pairwise e.amp hsmall
  · intro hsorted
    have hpw : List.Pairwise (fun a b => a ≤ b) e.times := List.chain'_iff_pairwise.mp hsorted
    have hpt := peakTimes_pairwise e hlen hn hpw
    show List.Pairwise (fun a b => a ≤ b) (e.peakTime ++
        (peaksIn e.amp 1 (sizeSub e.amp.length 1 - 1)).map (fun i => e.times.getD i 0)) ∧
      ∀ p ∈ adjacentPairs (e.peakTime ++
        (peaksIn e.amp 1 (sizeSub e.amp.length 1 - 1)).map (fun i => e.times.getD i 0)),
        0 ≤ p.2 - p.1
    rw [htime, List.nil_append]
    exact ⟨hpt, adjacentPairs_nonneg _ hpt⟩

/-- C10, an instance: the scenario signal, five samples at the times 0 to 4. -/
theorem detectPeaks_increasing_witness :
    List.Chain' (fun a b => a ≤ b) ([0, 1, 2, 3, 4] : List ℚ) ∧
      ∃ e', detectPeaks ⟨[0, 1, 2, 3, 4], [0, 0.5, 0.05, 0.6, 0.05], [], []⟩ = Except.ok e' ∧
        (5 ≤ 2 ^ 31 + 1 → List.Pairwise (fun x y => x < y) e'.peakData) ∧
        (List.Chain' (fun a b => a ≤ b) ([0, 1, 2, 3, 4] : List ℚ) →
          List.Pairwise (fun a b => a ≤ b) e'.peakTime ∧
          ∀ p ∈ adjacentPairs e'.peakTime, 0 ≤ p.2 - p.1) :=
  ⟨by norm_num,
   detectPeaks_increasing ⟨[0, 1, 2, 3, 4], [0, 0.5, 0.05, 0.6, 0.05], [], []⟩ rfl
    (by decide) rfl rfl⟩

/-- C10 fails beyond `2 ^ 31 + 1` samples.  Take `2 ^ 31 + 2` samples at the times
`0, 1, 2, ...`, all of amplitude 0 except the samples 1 and `2 ^ 31` of amplitude 1: the
recorded values are 1 and then `-2147483648`, which is not an increasing order. -/
theorem detectPeaks_increasing_wraps :
    (pulseStore (2 ^ 31 + 2) 1 (2 ^ 31)).times.length =
        (pulseStore (2 ^ 31 + 2) 1 (2 ^ 31)).amp.length ∧
      1 ≤ (pulseStore (2 ^ 31 + 2) 1 (2 ^ 31)).amp.length ∧
      (pulseStore (2 ^ 31 + 2) 1 (2 ^ 31)).peakData = [] ∧
      (pulseStore (2 ^ 31 + 2) 1 (2 ^ 31)).peakTime = [] ∧
      ∃ e', detectPeaks (pulseStore (2 ^ 31 + 2) 1 (2 ^ 31)) = Except.ok e' ∧
        e'.peakData = [1, -2147483648] ∧ ¬ List.Pairwise (fun x y => x < y) e'.peakData := by
  have hlen := pulseStore_amp_length (2 ^ 31 + 2) 1 (2 ^ 31)
  have htimes := pulseStore_times_length (2 ^ 31 + 2) 1 (2 ^ 31)
  have hw : toInt (2 ^ 31) = -2147483648 := by decide
  have h1 : toInt 1 = 1 := by decide
  refine ⟨htimes.trans hlen.symm, by rw [hlen]; norm_num, rfl, rfl, _,
    detectPeaks_double (2 ^ 31 + 2) 1 (2 ^ 31) (le_refl 1) (by norm_num) (le_refl _)
      (by norm_num), ?_, ?_⟩
  · rw [hw, h1]
  · rw [hw, h1]
    show ¬ List.Pairwise (fun x y => x < y) ([1, -2147483648] : List Int)
    norm_num

/-! ## A peak sequence of two times -/

theorem classifyHeartRate_pair (put : ℚ → String) (times amp : List ℚ) (peakData : List Int)
    (a b : ℚ) :
    classifyHeartRate put ⟨times, amp, peakData, [a, b]⟩ ⟨[], [], []⟩ = Except.ok
      (match categoryOf (a, b) with
        | Category.Fast => ⟨["Tachycardia detected between peaks at " ++ toString put a ++
            " and " ++ toString put b], [], []⟩
        | Category.Slow => ⟨[], ["Bradycardia detected between peaks at " ++ toString put a ++
            " and " ++ toString put b], []⟩
        | Category.Normal => ⟨[], [], ["Normal heart rate detected between peaks at " ++
            toString put a ++ " and " ++ toString put b]⟩) := by
  rw [classifyHeartRate_eq]
  cases hc : categoryOf (a, b) <;> simp [linesFor, adjacentPairs, hc, reportLine]

theorem doubleSub_of_doubles (a b : ℚ) (ha : toDouble a = a) (hb : toDouble b = b) :
    doubleSub a b = toDouble (a - b) := by
  unfold doubleSub
  rw [ha, hb]

theorem categoryOf_half : categoryOf (0, 0.5) = Category.Fast := by
  rw [categoryOf_fast_iff]
  have hd : doubleSub (0.5 : ℚ) 0 = 0.5 := by
    rw [doubleSub_of_doubles _ _ toDouble_half toDouble_zero, sub_zero, toDouble_half]
  simp only [hd, toDouble_point_six]
  norm_num

theorem categoryOf_point_seven : categoryOf (0, 0.7) = Category.Normal := by
  rw [categoryOf_normal_iff]
  have hd : doubleSub (0.7 : ℚ) 0 = 3152519739159347 / 4503599627370496 := by
    unfold doubleSub
    rw [toDouble_point_seven, toDouble_zero, sub_zero, toDouble_point_seven_idem]
  simp only [hd, toDouble_point_six]
  norm_num

/-! ## The intervals of some decimal times -/

theorem doubleSub_eq (a b da db d : ℚ) (ha : toDouble a = da) (hb : toDouble b = db)
    (hd : toDouble (da - db) = d) : doubleSub a b = d := by
  unfold doubleSub
  rw [ha, hb, hd]

theorem toDouble_of (x v : ℚ) (e m : ℤ) (h1 : 2 ^ e ≤ |x|) (h2 : |x| < 2 ^ (e + 1))
    (he : -1022 ≤ e) (hm : |x / 2 ^ (e - 52) - m| < 1 / 2) (hv : m * 2 ^ (e - 52) = v) :
    toDouble x = v := by
  rw [toDouble_eq x e m h1 h2 he hm, hv]

/-- The decimal times 1.2 and 2.2: the interval of their doubles is above 1. -/
theorem doubleSub_above_one : doubleSub 2.2 1.2 = 4503599627370497 / 4503599627370496 :=
  doubleSub_eq 2.2 1.2 (2476979795053773 / 1125899906842624)
    (5404319552844595 / 4503599627370496) _
    (toDouble_of _ _ 1 4953959590107546 (by norm_num [abs_of_pos]) (by norm_num [abs_of_pos])
      (by norm_num) (by norm_num [abs_lt]) (by norm_num))
    (toDouble_of _ _ 0 5404319552844595 (by norm_num [abs_of_pos]) (by norm_num [abs_of_pos])
      (by norm_num) (by norm_num [abs_lt]) (by norm_num))
    (toDouble_of _ _ 0 4503599627370497 (by norm_num [abs_of_pos]) (by norm_num [abs_of_pos])
      (by norm_num) (by norm_num [abs_lt]) (by norm_num))

/-- The decimal times 1.3 and 1.9: the interval of their doubles is below the double 0.6. -/
theorem doubleSub_below_point_six :
    doubleSub 1.9 1.3 = 2702159776422297 / 4503599627370496 :=
  doubleSub_eq 1.9 1.3 (4278419646001971 / 2251799813685248)
    (5854679515581645 / 4503599627370496) _
    (toDouble_of _ _ 0 8556839292003942 (by norm_num [abs_of_pos]) (by norm_num [abs_of_pos])
      (by norm_num) (by norm_num [abs_lt]) (by norm_num))
    (toDouble_of _ _ 0 5854679515581645 (by norm_num [abs_of_pos]) (by norm_num [abs_of_pos])
      (by norm_num) (by norm_num [abs_lt]) (by norm_num))
    (toDouble_of _ _ (-1) 5404319552844594 (by norm_num [abs_of_pos])
      (by norm_num [abs_of_pos]) (by norm_num) (by norm_num [abs_lt]) (by norm_num))

/-- The doubles 0.1 and 1.1: their interval is the double 1. -/
theorem doubleSub_one :
    doubleSub (2476979795053773 / 2251799813685248) (3602879701896397 / 36028797018963968) =
      1 :=
  doubleSub_eq _ _ (2476979795053773 / 2251799813685248)
    (3602879701896397 / 36028797018963968) _
    (toDouble_of _ _ 0 4953959590107546 (by norm_num [abs_of_pos]) (by norm_num [abs_of_pos])
      (by norm_num) (by norm_num [abs_lt]) (by norm_num))
    (toDouble_of _ _ (-4) 7205759403792794 (by norm_num [abs_of_pos])
      (by norm_num [abs_of_pos]) (by norm_num) (by norm_num [abs_lt]) (by norm_num))
    (toDouble_of _ _ 0 4503599627370496 (by norm_num [abs_of_pos]) (by norm_num [abs_of_pos])
      (by norm_num) (by norm_num [abs_lt]) (by norm_num))

theorem toDouble_point_one : toDouble 0.1 = 3602879701896397 / 36028797018963968 :=
  toDouble_of _ _ (-4) 7205759403792794 (by norm_num [abs_of_pos])
    (by norm_num [abs_of_pos]) (by norm_num) (by norm_num [abs_lt]) (by norm_num)

theorem toDouble_one_point_one : toDouble 1.1 = 2476979795053773 / 2251799813685248 :=
  toDouble_of _ _ 0 4953959590107546 (by norm_num [abs_of_pos]) (by norm_num [abs_of_pos])
    (by norm_num) (by norm_num [abs_lt]) (by norm_num)

/-- The categories at the two cut-offs, with the rounding of the doubles: the decimal times
1.2 and 2.2 are Slow and the decimal times 1.3 and 1.9 are Fast, although the decimal
numbers differ by 1 and by 0.6; the doubles 0.1 and 1.1 are Normal, although their exact
difference is above 1; the double 0.6 after the time 0 is Normal. -/
theorem categoryOf_rounding :
    categoryOf (1.2, 2.2) = Category.Slow ∧ categoryOf (1.3, 1.9) = Category.Fast ∧
      categoryOf (toDouble 0.1, toDouble 1.1) = Category.Normal ∧
      (1 : ℚ) < toDouble 1.1 - toDouble 0.1 ∧
      categoryOf (0, toDouble 0.6) = Category.Normal := by
  refine ⟨?_, ?_, ?_, ?_, ?_⟩
  · rw [categoryOf_slow_iff]
    show doubleSub 2.2 1.2 > 1
    rw [doubleSub_above_one]
    norm_num
  · rw [categoryOf_fast_iff]
    show ¬ doubleSub 1.9 1.3 > 1 ∧ doubleSub 1.9 1.3 < toDouble 0.6
    rw [doubleSub_below_point_six, toDouble_point_six]
    norm_num
  · rw [categoryOf_normal_iff, toDouble_point_one, toDouble_one_point_one]
    show ¬ doubleSub _ _ > 1 ∧ ¬ doubleSub _ _ < toDouble 0.6
    rw [doubleSub_one, toDouble_point_six]
    norm_num
  · rw [toDouble_point_one, toDouble_one_point_one]
    norm_num
  · rw [categoryOf_normal_iff, toDouble_point_six]
    show ¬ doubleSub _ 0 > 1 ∧ ¬ doubleSub _ 0 < _
    rw [doubleSub_of_doubles _ _ toDouble_point_six_idem toDouble_zero, sub_zero,
      toDouble_point_six_idem]
    norm_num

/-! ## Classification: the claims -/

/-- C3: started with three empty queues, `classifyHeartRate` reads inside `peakTime` only
and leaves: in the Bradycardia queue the lines of the adjacent pairs whose interval is
above 1, in the Tachycardia queue the lines of the pairs whose interval is not above 1 and
is below 0.6, in the Normal queue the lines of all other pairs; each queue in the order of
the pairs, each line with the name of its category and the two peak times of its pair.
The interval of a pair is the double `peakTime[i] - peakTime[i - 1]` that the program
computes, and 0.6 is the double of that literal. -/
theorem classifyHeartRate_queues (put : ℚ → String) (e : ECG) :
    classifyHeartRate put e ⟨[], [], []⟩ = Except.ok
      { bradycardiaResults :=
          ((adjacentPairs e.peakTime).filter (fun p => decide (doubleSub p.2 p.1 > 1))).map
            (fun p => "Bradycardia detected between peaks at " ++ toString put p.1 ++
              " and " ++ toString put p.2),
        tachycardiaResults :=
          ((adjacentPairs e.peakTime).filter
            (fun p => decide (¬ doubleSub p.2 p.1 > 1 ∧ doubleSub p.2 p.1 < toDouble 0.6))).map
            (fun p => "Tachycardia detected between peaks at " ++ toString put p.1 ++
              " and " ++ toString put p.2),
        normalResults :=
          ((adjacentPairs e.peakTime).filter
            (fun p => decide (¬ doubleSub p.2 p.1 > 1 ∧
              ¬ doubleSub p.2 p.1 < toDouble 0.6))).map
            (fun p => "Normal heart rate detected between peaks at " ++ toString put p.1 ++
              " and " ++ toString put p.2) } := by
  rw [classifyHeartRate_eq]
  have hs : ∀ l : List (ℚ × ℚ), l.filter (fun p => decide (categoryOf p = Category.Slow)) =
      l.filter (fun p => decide (doubleSub p.2 p.1 > 1)) := fun l =>
    List.filter_congr (fun p _ => by simp only [categoryOf_slow_iff])
  have hf : ∀ l : List (ℚ × ℚ), l.filter (fun p => decide (categoryOf p = Category.Fast)) =
      l.filter (fun p => decide (¬ doubleSub p.2 p.1 > 1 ∧ doubleSub p.2 p.1 < toDouble 0.6)) :=
    fun l => List.filter_congr (fun p _ => by simp only [categoryOf_fast_iff])
  have hm : ∀ l : List (ℚ × ℚ), l.filter (fun p => decide (categoryOf p = Category.Normal)) =
      l.filter (fun p => decide (¬ doubleSub p.2 p.1 > 1 ∧
        ¬ doubleSub p.2 p.1 < toDouble 0.6)) :=
    fun l => List.filter_congr (fun p _ => by simp only [categoryOf_normal_iff])
  simp only [linesFor, List.nil_append, hs, hf, hm]
  rfl

/-- C4: started with three empty queues, `classifyHeartRate` reads inside `peakTime` only
and leaves `len(peakTime) - 1` lines in total; the lines of the three queues together are,
up to their order, the list that holds one line per adjacent pair, and each queue holds
the lines of the pairs of its own category, so that every interval is in exactly one
queue.  Peak times `0, 0.5` give one Tachycardia line and nothing else; peak times
`0, 0.7` give one Normal line and nothing else. -/
theorem classifyHeartRate_partition (put : ℚ → String) (e : ECG) :
    (∃ q, classifyHeartRate put e ⟨[], [], []⟩ = Except.ok q ∧
      q.tachycardiaResults.length + q.bradycardiaResults.length + q.normalResults.length =
        e.peakTime.length - 1 ∧
      List.Perm (q.tachycardiaResults ++ q.bradycardiaResults ++ q.normalResults)
        ((adjacentPairs e.peakTime).map (fun p => reportLine put (categoryOf p) p)) ∧
      q.tachycardiaResults = linesFor put Category.Fast (adjacentPairs e.peakTime) ∧
      q.bradycardiaResults = linesFor put Category.Slow (adjacentPairs e.peakTime) ∧
      q.normalResults = linesFor put Category.Normal (adjacentPairs e.peakTime)) ∧
    classifyHeartRate put ⟨e.times, e.amp, e.peakData, [0, 0.5]⟩ ⟨[], [], []⟩ = Except.ok
      ⟨["Tachycardia detected between peaks at " ++ toString put 0 ++ " and " ++
        toString put 0.5], [], []⟩ ∧
    classifyHeartRate put ⟨e.times, e.amp, e.peakData, [0, 0.7]⟩ ⟨[], [], []⟩ = Except.ok
      ⟨[], [], ["Normal heart rate detected between peaks at " ++ toString put 0 ++ " and " ++
        toString put 0.7]⟩ := by
  refine ⟨⟨_, classifyHeartRate_eq put e ⟨[], [], []⟩, ?_, ?_, ?_, ?_, ?_⟩, ?_, ?_⟩
  · simp only [List.nil_append]
    rw [linesFor_length_sum, adjacentPairs_length]
  · simp only [List.nil_append]
    exact linesFor_perm put _
  · simp only [List.nil_append]
  · simp only [List.nil_append]
  · simp only [List.nil_append]
  · rw [classifyHeartRate_pair, categoryOf_half]
  · rw [classifyHeartRate_pair, categoryOf_point_seven]

/-- C7: at any index of the loop of `classifyHeartRate` where the interval between the two
peak times is exactly 1 or exactly 0.6, the body appends the Normal line of the pair to the
Normal queue and nothing to the other two queues; and the peak sequence made of these two
times alone gives this one Normal line and nothing else.  The interval is the one that the
program computes, or the exact difference of the two stored doubles, and 0.6 is the
double of that literal. -/
theorem classifyHeartRate_boundary (put : ℚ → String) (e : ECG) (i : Nat) (q : Queues)
    (h1 : 1 ≤ i) (h2 : i < e.peakTime.length)
    (hv : (doubleSub (e.peakTime.getD i 0) (e.peakTime.getD (i - 1) 0) = 1 ∨
        doubleSub (e.peakTime.getD i 0) (e.peakTime.getD (i - 1) 0) = toDouble 0.6) ∨
      (toDouble (e.peakTime.getD i 0) - toDouble (e.peakTime.getD (i - 1) 0) = 1 ∨
        toDouble (e.peakTime.getD i 0) - toDouble (e.peakTime.getD (i - 1) 0) =
          toDouble 0.6)) :
    classifyBody put e i q = Except.ok { q with normalResults := q.normalResults ++
      ["Normal heart rate detected between peaks at " ++
        toString put (e.peakTime.getD (i - 1) 0) ++ " and " ++
        toString put (e.peakTime.getD i 0)] } ∧
    classifyHeartRate put
        ⟨e.times, e.amp, e.peakData, [e.peakTime.getD (i - 1) 0, e.peakTime.getD i 0]⟩
        ⟨[], [], []⟩ =
      Except.ok ⟨[], [], ["Normal heart rate detected between peaks at " ++
        toString put (e.peakTime.getD (i - 1) 0) ++ " and " ++
        toString put (e.peakTime.getD i 0)]⟩ := by
  have hd : doubleSub (e.peakTime.getD i 0) (e.peakTime.getD (i - 1) 0) = 1 ∨
      doubleSub (e.peakTime.getD i 0) (e.peakTime.getD (i - 1) 0) = toDouble 0.6 := by
    rcases hv with hv | hv
    · exact hv
    · unfold doubleSub
      rcases hv with hv | hv
      · left
        rw [hv, toDouble_one]
      · right
        rw [hv, toDouble_point_six, toDouble_point_six_idem]
  have hc : categoryOf (e.peakTime.getD (i - 1) 0, e.peakTime.getD i 0) = Category.Normal := by
    rw [categoryOf_normal_iff]
    rcases hd with hd | hd <;> rw [hd] <;> rw [toDouble_point_six] <;> norm_num
  constructor
  · rw [classifyBody_eq put e i q h1 h2]
    simp only [pairAt, hc]
    rfl
  · rw [classifyHeartRate_pair, hc]

/-- C7, two instances: the peak times 2 and 3, two doubles whose difference is 1, and the
peak times 0 and the double 0.6, whose difference is the double 0.6. -/
theorem classifyHeartRate_boundary_witness :
    (classifyBody (fun _ => "t") ⟨[], [], [], [2, 3]⟩ 1 ⟨[], [], []⟩ =
        Except.ok ⟨[], [], ["Normal heart rate detected between peaks at t and t"]⟩ ∧
      classifyHeartRate (fun _ => "t") ⟨[], [], [], [2, 3]⟩ ⟨[], [], []⟩ =
        Except.ok ⟨[], [], ["Normal heart rate detected between peaks at t and t"]⟩) ∧
    (classifyBody (fun _ => "t") ⟨[], [], [], [0, toDouble 0.6]⟩ 1 ⟨[], [], []⟩ =
        Except.ok ⟨[], [], ["Normal heart rate detected between peaks at t and t"]⟩ ∧
      classifyHeartRate (fun _ => "t") ⟨[], [], [], [0, toDouble 0.6]⟩ ⟨[], [], []⟩ =
        Except.ok ⟨[], [], ["Normal heart rate detected between peaks at t and t"]⟩) :=
  ⟨classifyHeartRate_boundary (fun _ => "t") ⟨[], [], [], [2, 3]⟩ 1 ⟨[], [], []⟩
      (le_refl 1) (by decide)
      (Or.inr (Or.inl (by
        show toDouble 3 - toDouble 2 = 1
        rw [toDouble_three, toDouble_two]
        norm_num))),
   classifyHeartRate_boundary (fun _ => "t") ⟨[], [], [], [0, toDouble 0.6]⟩ 1 ⟨[], [], []⟩
      (le_refl 1) (by decide)
      (Or.inr (Or.inr (by
        show toDouble (toDouble 0.6) - toDouble 0 = toDouble 0.6
        rw [toDouble_point_six, toDouble_point_six_idem, toDouble_zero, sub_zero])))⟩

/-! ## Merged reports: the claims -/

/-- C5: when both reports open and the destination can be written, `combineFiles` prints
no error and leaves in the destination the lines of the first report in their order, the
line `**************`, and the lines of the second report in their order, each followed
by a newline; reading the destination back gives these lines; their count is
`len(A) + len(B) + 1` and the separator is the line of index `len(A)`. -/
theorem combineFiles_merges (w : World) (resultFile person1File person2File a b : String)
    (h1 : w.files person1File = some a) (h2 : w.files person2File = some b)
    (hw : w.canWrite resultFile = true) :
    (combineFiles w resultFile person1File person2File).files resultFile =
        some (writeLoop (linesOf a [] ++ ["**************"] ++ linesOf b []) "") ∧
      linesOf (writeLoop (linesOf a [] ++ ["**************"] ++ linesOf b []) "") [] =
        linesOf a [] ++ ["**************"] ++ linesOf b [] ∧
      (linesOf a [] ++ ["**************"] ++ linesOf b []).length =
        (linesOf a []).length + (linesOf b []).length + 1 ∧
      (linesOf a [] ++ ["**************"] ++ linesOf b [])[(linesOf a []).length]? =
        some "**************" ∧
      (combineFiles w resultFile person1File person2File).cerr = w.cerr := by
  rw [combineFiles_eq w resultFile person1File person2File hw]
  refine ⟨?_, ?_, ?_, ?_, ?_⟩
  · simp [linesRead, h1, h2, separator]
  · have hl := linesOf_writeLoop (linesOf a [] ++ ["**************"] ++ linesOf b []) [] ?_
    · simpa using hl
    · intro l hl
      simp only [List.mem_append, List.mem_singleton] at hl
      rcases hl with (hl | hl) | hl
      · exact linesOf_oneLine a l hl
      · rw [hl]; decide
      · exact linesOf_oneLine b l hl
  · simp only [List.length_append, List.length_singleton]
    omega
  · rw [List.append_assoc, List.getElem?_append_right (le_refl _)]
    simp
  · simp [openErrors, h1, h2]

/-- C5, the scenario of the specification: merging the report of the single line `x` and
the report of the single line `y` gives the lines `x`, `**************`, `y`. -/
theorem combineFiles_merges_witness :
    (linesOf "x\n" [] = ["x"] ∧ linesOf "y\n" [] = ["y"] ∧
      (combineFiles twoReports "out.txt" "a.txt" "b.txt").files "out.txt" =
        some "x\n**************\ny\n" ∧
      linesOf "x\n**************\ny\n" [] = ["x", "**************", "y"]) ∧
    ((combineFiles twoReports "out.txt" "a.txt" "b.txt").files "out.txt" =
        some (writeLoop (linesOf "x\n" [] ++ ["**************"] ++ linesOf "y\n" []) "") ∧
      linesOf (writeLoop (linesOf "x\n" [] ++ ["**************"] ++ linesOf "y\n" []) "") [] =
        linesOf "x\n" [] ++ ["**************"] ++ linesOf "y\n" [] ∧
      (linesOf "x\n" [] ++ ["**************"] ++ linesOf "y\n" []).length =
        (linesOf "x\n" []).length + (linesOf "y\n" []).length + 1 ∧
      (linesOf "x\n" [] ++ ["**************"] ++ linesOf "y\n" [])[(linesOf "x\n" []).length]? =
        some "**************" ∧
      (combineFiles twoReports "out.txt" "a.txt" "b.txt").cerr = twoReports.cerr) :=
  ⟨⟨by decide, by decide, by decide, by decide⟩,
   combineFiles_merges twoReports "out.txt" "a.txt" "b.txt" "x\n" "y\n" (by decide) (by decide)
    rfl⟩

/-- C6 fails: `a.txt` cannot be opened, `b.txt` holds the line `y`.  `combineFiles` prints
one line on `cerr`, goes on, and writes the separator and `y` to the destination, as if
`a.txt` were an empty report. -/
theorem combineFiles_missing_source_writes :
    oneReport.files "a.txt" = none ∧
      (combineFiles oneReport "out.txt" "a.txt" "b.txt").files "out.txt" =
        some "**************\ny\n" ∧
      (combineFiles oneReport "out.txt" "a.txt" "b.txt").cerr =
        ["ERROR: Failed to open file: a.txt"] ∧
      (combineFiles oneReport "out.txt" "a.txt" "b.txt").cout =
        ["Results written to out.txt"] := by
  decide

/-- C6 (amended): when a source report cannot be opened and the destination can be
written, `combineFiles` prints `ERROR: Failed to open file: <path>` on `cerr` for each
missing source, takes a missing source as a report without lines, and still writes to the
destination the lines of the first source, the separator and the lines of the second
source. -/
theorem combineFiles_missing_source (w : World) (resultFile person1File person2File : String)
    (hmiss : w.files person1File = none ∨ w.files person2File = none)
    (hw : w.canWrite resultFile = true) :
    (combineFiles w resultFile person1File person2File).files resultFile =
        some (writeLoop
          (linesRead w person1File ++ ["**************"] ++ linesRead w person2File) "") ∧
      (w.files person1File = none → linesRead w person1File = [] ∧
        openErrors w person1File = ["ERROR: Failed to open file: " ++ person1File]) ∧
      (w.files person2File = none → linesRead w person2File = [] ∧
        openErrors w person2File = ["ERROR: Failed to open file: " ++ person2File]) ∧
      (combineFiles w resultFile person1File person2File).cerr =
        w.cerr ++ openErrors w person1File ++ openErrors w person2File ∧
      openErrors w person1File ++ openErrors w person2File ≠ [] ∧
      (combineFiles w resultFile person1File person2File).cout =
        w.cout ++ ["Results written to " ++ resultFile] := by
  rw [combineFiles_eq w resultFile person1File person2File hw]
  refine ⟨by simp [separator], ?_, ?_, rfl, ?_, rfl⟩
  · intro h
    simp [linesRead, openErrors, h]
  · intro h
    simp [linesRead, openErrors, h]
  · rcases hmiss with h | h <;> simp [openErrors, h]

/-- C6 (amended), an instance: the world where only `b.txt` exists. -/
theorem combineFiles_missing_source_witness :
    (combineFiles oneReport "out.txt" "a.txt" "b.txt").files "out.txt" =
        some (writeLoop
          (linesRead oneReport "a.txt" ++ ["**************"] ++ linesRead oneReport "b.txt")
          "") ∧
      (oneReport.files "a.txt" = none → linesRead oneReport "a.txt" = [] ∧
        openErrors oneReport "a.txt" = ["ERROR: Failed to open file: " ++ "a.txt"]) ∧
      (oneReport.files "b.txt" = none → linesRead oneReport "b.txt" = [] ∧
        openErrors oneReport "b.txt" = ["ERROR: Failed to open file: " ++ "b.txt"]) ∧
      (combineFiles oneReport "out.txt" "a.txt" "b.txt").cerr =
        oneReport.cerr ++ openErrors oneReport "a.txt" ++ openErrors oneReport "b.txt" ∧
      openErrors oneReport "a.txt" ++ openErrors oneReport "b.txt" ≠ [] ∧
      (combineFiles oneReport "out.txt" "a.txt" "b.txt").cout =
        oneReport.cout ++ ["Results written to " ++ "out.txt"] :=
  combineFiles_missing_source oneReport "out.txt" "a.txt" "b.txt" (Or.inl (by decide)) rfl

/-! ## Classification: zero or one peak, and repeated calls -/

/-- C13: on a store whose `peakTime` has length 0 or 1, `classifyHeartRate` started with
three empty queues ends without a read outside `peakTime` and leaves the three queues
empty. -/
theorem classifyHeartRate_few_peaks (put : ℚ → String) (e : ECG)
    (h : e.peakTime.length = 0 ∨ e.peakTime.length = 1) :
    classifyHeartRate put e ⟨[], [], []⟩ = Except.ok ⟨[], [], []⟩ := by
  unfold classifyHeartRate forRange
  have hk : e.peakTime.length - 1 = 0 := by omega
  rw [hk]
  rfl

/-- C13, two instances: no peak, and the single peak time 2.5. -/
theorem classifyHeartRate_few_peaks_witness :
    classifyHeartRate (fun _ => "t") ⟨[0, 1], [0, 0], [], []⟩ ⟨[], [], []⟩ =
        Except.ok ⟨[], [], []⟩ ∧
      classifyHeartRate (fun _ => "t") ⟨[0, 1, 2.5, 3], [0, 0, 1, 0], [2], [2.5]⟩ ⟨[], [], []⟩ =
        Except.ok ⟨[], [], []⟩ :=
  ⟨classifyHeartRate_few_peaks (fun _ => "t") ⟨[0, 1], [0, 0], [], []⟩ (Or.inl rfl),
   classifyHeartRate_few_peaks (fun _ => "t") ⟨[0, 1, 2.5, 3], [0, 0, 1, 0], [2], [2.5]⟩
    (Or.inr rfl)⟩

/-- C14: a call of `classifyHeartRate` with fresh empty queues ends without a read outside
`peakTime` and gives back the store as it was, with `times`, `amp`, `peakData` and
`peakTime` unchanged; a second call on the store that the first call left, again with
fresh empty queues, gives the same three queues and the same store. -/
theorem classifyCall_repeat (put : ℚ → String) (e : ECG) :
    ∃ q, classifyCall put (e, ⟨[], [], []⟩) = Except.ok (e, q) ∧
      (∀ s1, classifyCall put (e, ⟨[], [], []⟩) = Except.ok s1 →
        s1.1.times = e.times ∧ s1.1.amp = e.amp ∧ s1.1.peakData = e.peakData ∧
        s1.1.peakTime = e.peakTime ∧
        classifyCall put (s1.1, ⟨[], [], []⟩) = Except.ok (e, q)) := by
  have hq := classifyHeartRate_eq put e ⟨[], [], []⟩
  have hc : classifyCall put (e, ⟨[], [], []⟩) = Except.ok (e,
      { tachycardiaResults := [] ++ linesFor put Category.Fast (adjacentPairs e.peakTime),
        bradycardiaResults := [] ++ linesFor put Category.Slow (adjacentPairs e.peakTime),
        normalResults := [] ++ linesFor put Category.Normal (adjacentPairs e.peakTime) }) := by
    unfold classifyCall
    rw [hq]
  refine ⟨_, hc, ?_⟩
  intro s1 hs1
  rw [hc] at hs1
  have h1 : s1.1 = e := by
    have := congrArg (fun r => match r with
      | Except.ok (s : ECG × Queues) => s.1
      | Except.error _ => e) hs1
    exact this.symm
  rw [h1]
  exact ⟨rfl, rfl, rfl, rfl, hc⟩

/-! ## Writing and reading a report -/

/-- C16: for lines that hold no newline character and a path that can be written,
`writeDetectionResults` followed by `readDetectionResults` of the same path into an empty
queue gives back the lines, in their order. -/
theorem write_then_read (w : World) (path : String) (lines : List String)
    (hw : w.canWrite path = true) (hl : ∀ l ∈ lines, oneLine l) :
    (readDetectionResults (writeDetectionResults w path lines).1 path []).2 = lines := by
  unfold writeDetectionResults
  simp only [hw, if_true]
  unfold readDetectionResults
  simp only [if_true]
  simpa using linesOf_writeLoop lines [] hl

/-- C16, two instances: a report of three lines, one of them empty, and the empty report. -/
theorem write_then_read_witness :
    (readDetectionResults (writeDetectionResults oneReport "r.txt"
        ["Tachycardia detected between peaks at 0 and 0.5", "", "x y"]).1 "r.txt" []).2 =
        ["Tachycardia detected between peaks at 0 and 0.5", "", "x y"] ∧
      (readDetectionResults (writeDetectionResults oneReport "r.txt" []).1 "r.txt" []).2 = [] :=
  ⟨write_then_read oneReport "r.txt"
      ["Tachycardia detected between peaks at 0 and 0.5", "", "x y"] rfl (by decide),
   write_then_read oneReport "r.txt" [] rfl (by decide)⟩

/-- C18: when the output file opens, `writeDetectionResults` leaves the queue empty and the
file holds the entries of the queue from front to back, each followed by a newline, and
nothing else; when it does not open, the queue comes back unchanged, no file is changed and
nothing goes to `cout`. -/
theorem writeDetectionResults_consumes (w : World) (path : String) (results : List String) :
    (w.canWrite path = true →
      (writeDetectionResults w path results).2 = [] ∧
      ∃ text, (writeDetectionResults w path results).1.files path = some text ∧
        text.data = textOf results) ∧
    (w.canWrite path = false →
      (writeDetectionResults w path results).2 = results ∧
      (writeDetectionResults w path results).1.files = w.files ∧
      (writeDetectionResults w path results).1.cout = w.cout ∧
      (writeDetectionResults w path results).1.cerr =
        w.cerr ++ ["ERROR: Failed to open output file: " ++ path]) := by
  constructor
  · intro hw
    unfold writeDetectionResults
    simp only [hw, if_true]
    refine ⟨trivial, ?_⟩
    simpa using writeLoop_data results ""
  · intro hw
    unfold writeDetectionResults
    simp [hw]

/-- C18, an instance of each case: a path that opens, and a world where no path can be
written. -/
theorem writeDetectionResults_consumes_witness :
    ((writeDetectionResults oneReport "r.txt" ["a", "b"]).2 = [] ∧
      (writeDetectionResults oneReport "r.txt" ["a", "b"]).1.files "r.txt" = some "a\nb\n") ∧
    ((writeDetectionResults ⟨fun _ => none, fun _ => false, [], []⟩ "r.txt" ["a", "b"]).2 =
        ["a", "b"] ∧
      (writeDetectionResults ⟨fun _ => none, fun _ => false, [], []⟩ "r.txt"
        ["a", "b"]).1.files "r.txt" = none) := by
  have h1 := (writeDetectionResults_consumes oneReport "r.txt" ["a", "b"]).1 rfl
  have h2 := (writeDetectionResults_consumes ⟨fun _ => none, fun _ => false, [], []⟩ "r.txt"
    ["a", "b"]).2 rfl
  exact ⟨⟨h1.1, by decide⟩, ⟨h2.1, by rw [h2.2.1]⟩⟩

/-! ## Running `detectPeaks` twice -/

/-- C17: on a store with `n ≥ 1` samples, as many times as amplitudes and empty peak lists,
two runs of `detectPeaks` end without a read outside the vectors and leave `peakData` equal
to `p ++ p` and `peakTime` equal to `t ++ t`, where `p` and `t` are the lists left by the
first run; the second run leaves the store of the first run as it is exactly when the first
run found no peak. -/
theorem detectPeaks_twice (e : ECG) (hlen : e.times.length = e.amp.length)
    (hn : 1 ≤ e.amp.length) (hdata : e.peakData = []) (htime : e.peakTime = []) :
    ∃ e1 e2, detectPeaks e = Except.ok e1 ∧ detectPeaks e1 = Except.ok e2 ∧
      e2.peakData = e1.peakData ++ e1.peakData ∧ e2.peakTime = e1.peakTime ++ e1.peakTime ∧
      e2.times = e.times ∧ e2.amp = e.amp ∧
      (e2 = e1 ↔ e1.peakData = []) := by
  obtain ⟨e1, h1, ht1, ha1, hd1, hp1⟩ := detectPeaks_fields e hn hlen
  obtain ⟨e2, h2, ht2, ha2, hd2, hp2⟩ := detectPeaks_fields e1 (by rw [ha1]; exact hn)
    (by rw [ht1, ha1]; exact hlen)
  rw [ha1] at hd2 hp2
  rw [ht1] at hp2
  rw [hdata, List.nil_append] at hd1
  rw [htime, List.nil_append] at hp1
  generalize foundPeaks e.amp = found at hd1 hp1 hd2 hp2
  refine ⟨e1, e2, h1, h2, ?_, ?_, ht2.trans ht1, ha2.trans ha1, ?_⟩
  · rw [hd2, hd1]
  · rw [hp2, hp1]
  · constructor
    · intro h
      rw [h] at hd2
      have hl := congrArg List.length hd2
      rw [List.length_append, List.length_map] at hl
      have h0 : found = [] := List.length_eq_zero.mp (by omega)
      rw [hd1, h0]
      rfl
    · intro h
      have h0 : found = [] := List.map_eq_nil_iff.mp (hd1.symm.trans h)
      rw [h0] at hd2 hp2
      exact ECG_ext e2 e1 ht2 ha2 (by rw [hd2]; simp) (by rw [hp2]; simp)

/-- C17, an instance: the scenario signal; one run leaves the indices 1, 3 and two runs
leave 1, 3, 1, 3. -/
theorem detectPeaks_twice_witness :
    (detectPeaks ⟨[0, 1, 2, 3, 4], [0, 0.5, 0.05, 0.6, 0.05], [1, 3], [1, 3]⟩ =
      Except.ok ⟨[0, 1, 2, 3, 4], [0, 0.5, 0.05, 0.6, 0.05], [1, 3, 1, 3], [1, 3, 1, 3]⟩) ∧
    ∃ e1 e2, detectPeaks ⟨[0, 1, 2, 3, 4], [0, 0.5, 0.05, 0.6, 0.05], [], []⟩ = Except.ok e1 ∧
      detectPeaks e1 = Except.ok e2 ∧
      e2.peakData = e1.peakData ++ e1.peakData ∧ e2.peakTime = e1.peakTime ++ e1.peakTime ∧
      e2.times = [0, 1, 2, 3, 4] ∧ e2.amp = [0, 0.5, 0.05, 0.6, 0.05] ∧
      (e2 = e1 ↔ e1.peakData = []) :=
  ⟨by
    norm_num [detectPeaks, forRange, forLoop, sizeSub, sizeMod, detectBody, vget, bind,
      Except.bind, pure, Except.pure, threshold, toInt],
   detectPeaks_twice ⟨[0, 1, 2, 3, 4], [0, 0.5, 0.05, 0.6, 0.05], [], []⟩ rfl (by decide)
    rfl rfl⟩

/-! ## Peak indices and peak times -/

theorem peaksConsistent_nil (times amp : List ℚ) : peaksConsistent ⟨times, amp, [], []⟩ := by
  refine ⟨rfl, ?_⟩
  intro k x h
  simp at h

theorem getElem?_map_found (found : List Nat) (f : Nat → Int) (k : Nat) (x : Int)
    (h : (found.map f)[k]? = some x) : ∃ i, found[k]? = some i ∧ f i = x := by
  rw [List.getElem?_map] at h
  cases hf : found[k]? with
  | none => rw [hf] at h; simp at h
  | some i =>
    rw [hf] at h
    exact ⟨i, rfl, by simpa using h⟩

/-- C11 (amended: at most `2 ^ 31 + 1` samples, peak lists that already have the
property): on a store with `1 ≤ n ≤ 2 ^ 31 + 1` samples, as many times as amplitudes, and
peak lists that are empty or already consistent, `detectPeaks` ends without a read outside
the vectors, leaves `times` as it is, leaves `peakData` and `peakTime` with one length, and
every `peakData[k]` is an index into the samples with `peakTime[k] = times[peakData[k]]`. -/
theorem detectPeaks_consistent (e : ECG) (hlen : e.times.length = e.amp.length)
    (hn : 1 ≤ e.amp.length) (hsmall : e.amp.length ≤ 2 ^ 31 + 1)
    (hinit : peaksConsistent e) :
    ∃ e', detectPeaks e = Except.ok e' ∧ e'.times = e.times ∧
      e'.peakData.length = e'.peakTime.length ∧
      ∀ (k : Nat) (x : Int), e'.peakData[k]? = some x →
        0 ≤ x ∧ x.toNat < e'.times.length ∧ e'.peakTime[k]? = e'.times[x.toNat]? := by
  obtain ⟨e1, h1, ht1, ha1, hd1, hp1⟩ := detectPeaks_fields e hn hlen
  have hmem : ∀ i ∈ foundPeaks e.amp, i < 2 ^ 31 ∧ i < e.times.length := by
    intro i hi
    rw [mem_foundPeaks] at hi
    have h2 := hi.2.1
    have hs := sizeSub_one_le e.amp.length hn
    omega
  generalize foundPeaks e.amp = found at hd1 hp1 hmem
  refine ⟨e1, h1, ht1, ?_, ?_⟩
  · rw [hd1, hp1, List.length_append, List.length_append, List.length_map, List.length_map,
      hinit.1]
  · intro k x hx
    rw [hd1] at hx
    rw [hp1, ht1]
    by_cases hk : k < e.peakData.length
    · rw [List.getElem?_append_left hk] at hx
      rw [List.getElem?_append_left (by rw [← hinit.1]; exact hk)]
      exact hinit.2 k x hx
    · have hk' : e.peakData.length ≤ k := Nat.le_of_not_lt hk
      rw [List.getElem?_append_right hk'] at hx
      rw [List.getElem?_append_right (by rw [← hinit.1]; exact hk'), ← hinit.1]
      obtain ⟨i, hi, hxi⟩ := getElem?_map_found found toInt _ x hx
      have him := hmem i (List.getElem?_mem hi)
      rw [toInt_of_lt i him.1] at hxi
      subst hxi
      refine ⟨Int.natCast_nonneg i, by simpa using him.2, ?_⟩
      rw [List.getElem?_map, hi, Int.toNat_ofNat]
      simp [List.getD_eq_getElem?_getD, List.getElem?_eq_getElem him.2]

theorem pulseStore_consistent (n a b : Nat) : peaksConsistent (pulseStore n a b) :=
  peaksConsistent_nil _ _

/-- C11, an instance: the scenario signal with empty peak lists. -/
theorem detectPeaks_consistent_witness :
    peaksConsistent ⟨[0, 1, 2, 3, 4], [0, 0.5, 0.05, 0.6, 0.05], [], []⟩ ∧
    ∃ e', detectPeaks ⟨[0, 1, 2, 3, 4], [0, 0.5, 0.05, 0.6, 0.05], [], []⟩ = Except.ok e' ∧
      e'.times = [0, 1, 2, 3, 4] ∧
      e'.peakData.length = e'.peakTime.length ∧
      ∀ (k : Nat) (x : Int), e'.peakData[k]? = some x →
        0 ≤ x ∧ x.toNat < e'.times.length ∧ e'.peakTime[k]? = e'.times[x.toNat]? :=
  ⟨peaksConsistent_nil _ _,
   detectPeaks_consistent ⟨[0, 1, 2, 3, 4], [0, 0.5, 0.05, 0.6, 0.05], [], []⟩ rfl
    (by decide) (by decide) (peaksConsistent_nil _ _)⟩

/-- C11 fails beyond `2 ^ 31 + 1` samples.  Take `2 ^ 31 + 2` samples at the times
`0, 1, 2, ...`, all of amplitude 0 except sample `2 ^ 31` of amplitude 1, and empty peak
lists: `peakData[0]` is `-2147483648`, which is not an index into the samples. -/
theorem detectPeaks_consistent_wraps :
    (pulseStore (2 ^ 31 + 2) (2 ^ 31) (2 ^ 31)).times.length =
        (pulseStore (2 ^ 31 + 2) (2 ^ 31) (2 ^ 31)).amp.length ∧
      peaksConsistent (pulseStore (2 ^ 31 + 2) (2 ^ 31) (2 ^ 31)) ∧
      ∃ e', detectPeaks (pulseStore (2 ^ 31 + 2) (2 ^ 31) (2 ^ 31)) = Except.ok e' ∧
        e'.peakData[0]? = some (-2147483648) ∧ ¬ (0 : Int) ≤ -2147483648 := by
  have hlen := pulseStore_amp_length (2 ^ 31 + 2) (2 ^ 31) (2 ^ 31)
  have htimes := pulseStore_times_length (2 ^ 31 + 2) (2 ^ 31) (2 ^ 31)
  have hw : toInt (2 ^ 31) = -2147483648 := by decide
  refine ⟨htimes.trans hlen.symm, pulseStore_consistent _ _ _, _,
    detectPeaks_single (2 ^ 31 + 2) (2 ^ 31) (by norm_num) (le_refl _) (by norm_num), ?_,
    by norm_num⟩
  rw [hw]
  rfl

/-! ## Loading the samples -/

theorem loadLoop_eq : ∀ (input : List Token) (e : ECG),
    loadLoop input e = { e with
      times := e.times ++ (pairUp (numericPrefix input)).map Prod.fst,
      amp := e.amp ++ (pairUp (numericPrefix input)).map Prod.snd }
  | [], e => by simp [loadLoop, numericPrefix, pairUp]
  | [none], e => by simp [loadLoop, numericPrefix, pairUp]
  | [some t], e => by simp [loadLoop, numericPrefix, pairUp]
  | none :: _ :: _, e => by simp [loadLoop, numericPrefix, pairUp]
  | some t :: none :: _, e => by simp [loadLoop, numericPrefix, pairUp]
  | some t :: some a :: rest, e => by
    rw [loadLoop, loadLoop_eq rest]
    simp [numericPrefix, pairUp]

theorem numericPrefix_stop (pre post : List Token) (h : ∀ t ∈ pre, t.isSome = true) :
    numericPrefix (pre ++ none :: post) = numericPrefix pre := by
  unfold numericPrefix
  rw [List.takeWhile_append_of_pos h]
  have hp : pre.takeWhile (fun t => t.isSome) = pre := by
    rw [List.takeWhile_eq_self_iff]
    exact h
  rw [hp]
  simp

/-- C12: for an input file that opens, seen as a sequence of tokens each numeric or not,
`loadData` on an empty store leaves in `times` and `amp` the first and second members of
the pairs taken two at a time, in order, from the longest prefix of numeric tokens, so
`times` and `amp` have one length; what follows the first token that is not numeric
changes nothing; and a last numeric token without a partner gives no sample. -/
theorem loadData_samples (tokens : String → List Token) (w : World) (fileName text : String)
    (h : w.files fileName = some text) :
    (loadData tokens w fileName ⟨[], [], [], []⟩).2 =
        ⟨(pairUp (numericPrefix (tokens text))).map Prod.fst,
          (pairUp (numericPrefix (tokens text))).map Prod.snd, [], []⟩ ∧
      (loadData tokens w fileName ⟨[], [], [], []⟩).2.times.length =
        (loadData tokens w fileName ⟨[], [], [], []⟩).2.amp.length ∧
      (∀ pre post : List Token, (∀ t ∈ pre, t.isSome = true) →
        loadLoop (pre ++ none :: post) ⟨[], [], [], []⟩ = loadLoop pre ⟨[], [], [], []⟩) ∧
      (∀ (pairs : List (ℚ × ℚ)) (last : ℚ),
        pairUp (pairs.flatMap (fun p => [p.1, p.2]) ++ [last]) = pairs) := by
  have hl : (loadData tokens w fileName ⟨[], [], [], []⟩).2 =
      ⟨(pairUp (numericPrefix (tokens text))).map Prod.fst,
        (pairUp (numericPrefix (tokens text))).map Prod.snd, [], []⟩ := by
    unfold loadData
    simp only [h]
    rw [loadLoop_eq]
    simp
  refine ⟨hl, ?_, ?_, ?_⟩
  · rw [hl]
    simp
  · intro pre post hpre
    rw [loadLoop_eq, loadLoop_eq, numericPrefix_stop pre post hpre]
  · intro pairs last
    induction pairs with
    | nil => simp [pairUp]
    | cons p rest ih => simpa [pairUp] using ih

/-- C12, an instance: the tokens `0 0 1 0.5 2 x 3 4` give the samples `(0, 0)` and
`(1, 0.5)`: the 2 has no partner, and `3 4` after `x` are not read. -/
theorem loadData_samples_witness :
    (loadData signalTokens signalWorld "person1.txt" ⟨[], [], [], []⟩).2 =
        ⟨[0, 1], [0, 0.5], [], []⟩ ∧
    ((loadData signalTokens signalWorld "person1.txt" ⟨[], [], [], []⟩).2 =
        ⟨(pairUp (numericPrefix (signalTokens "0 0 1 0.5 2 x 3 4"))).map Prod.fst,
          (pairUp (numericPrefix (signalTokens "0 0 1 0.5 2 x 3 4"))).map Prod.snd, [], []⟩ ∧
      (loadData signalTokens signalWorld "person1.txt" ⟨[], [], [], []⟩).2.times.length =
        (loadData signalTokens signalWorld "person1.txt" ⟨[], [], [], []⟩).2.amp.length ∧
      (∀ pre post : List Token, (∀ t ∈ pre, t.isSome = true) →
        loadLoop (pre ++ none :: post) ⟨[], [], [], []⟩ = loadLoop pre ⟨[], [], [], []⟩) ∧
      (∀ (pairs : List (ℚ × ℚ)) (last : ℚ),
        pairUp (pairs.flatMap (fun p => [p.1, p.2]) ++ [last]) = pairs)) := by
  have h := loadData_samples signalTokens signalWorld "person1.txt" "0 0 1 0.5 2 x 3 4"
    (by decide)
  refine ⟨?_, h⟩
  rw [h.1]
  simp [signalTokens, numericPrefix, pairUp]

/-! ## Lemmas on the six significant digits -/

theorem sixDigits_zero : sixDigits 0 = ⟨false, 0, 0⟩ := by
  unfold sixDigits
  rw [if_pos rfl]

theorem log_ten_eq (x : ℚ) (e : ℤ) (h1 : 10 ^ e ≤ x) (h2 : x < 10 ^ (e + 1)) :
    Int.log 10 x = e := by
  have hx : 0 < x := lt_of_lt_of_le (by positivity) h1
  apply le_antisymm
  · have := (Int.lt_zpow_iff_log_lt (b := 10) (by norm_num) hx).mp (by simpa using h2)
    omega
  · exact (Int.zpow_le_iff_le_log (b := 10) (by norm_num) hx).mp (by simpa using h1)

/-- The six digits of a value in the decade of `x` that is within less than half a unit of
the sixth digit of `m`, below 1000000. -/
theorem sixDigits_eq (value : ℚ) (x m : ℤ) (h1 : 10 ^ x ≤ |value|) (h2 : |value| < 10 ^ (x + 1))
    (hm : |(|value| / 10 ^ (x - 5) - m)| < 1 / 2) (hm1 : m.toNat ≠ 1000000) :
    sixDigits value = ⟨decide (value < 0), m.toNat, x⟩ := by
  have hv : value ≠ 0 := by
    intro h
    rw [h, abs_zero] at h1
    exact absurd h1 (not_le.mpr (by positivity))
  unfold sixDigits
  rw [if_neg hv, log_ten_eq |value| x h1 h2, roundHalfEven_of_near _ m hm, if_neg hm1]

/-- A negative value below half the smallest double in size is the double `-0.0`. -/
theorem toDouble_negative_zero : toDouble (-(1 / 2 ^ 1080)) = 0 := by
  have hl : Int.log 2 |(-(1 / 2 ^ 1080) : ℚ)| = -1080 :=
    log_two_eq _ (-1080) (by norm_num [abs_of_pos]) (by norm_num [abs_of_pos])
  unfold toDouble quantumExponent
  rw [hl, roundHalfEven_of_near _ 0 (by norm_num [abs_lt])]
  norm_num

theorem putDouble_negative_zero : toString putDouble (-(1 / 2 ^ 1080)) = "-0" := by
  have hn : decide ((-(1 / 2 ^ 1080) : ℚ) < 0) = true := by
    rw [decide_eq_true_iff]
    norm_num
  unfold toString putDouble shownDigits
  rw [toDouble_negative_zero, sixDigits_zero, hn]
  decide

/-- The text of six digits in each notation: scientific with a positive and a negative
exponent of two and of three digits, fixed below 1, fixed without a fraction and with
one. -/
theorem render_notations :
    render ⟨false, 123457, 6⟩ = "1.23457e+06" ∧ render ⟨true, 953674, -7⟩ = "-9.53674e-07" ∧
      render ⟨false, 258225, 120⟩ = "2.58225e+120" ∧ render ⟨false, 100000, -5⟩ = "1e-05" ∧
      render ⟨false, 100000, -4⟩ = "0.0001" ∧ render ⟨false, 123456, 5⟩ = "123456" ∧
      render ⟨true, 123400, 2⟩ = "-123.4" := by
  refine ⟨by decide, by decide, ?_, by decide, by decide, by decide, by decide⟩
  have hd : exponentDigits 120 = ['1', '2', '0'] := by
    unfold exponentDigits
    norm_num
    decide
  have hn : Int.natAbs (120 : ℤ) = 120 := rfl
  unfold render exponentPart
  dsimp only
  rw [hn, hd]
  decide

/-- The time 1234567 is printed in scientific notation, rounded to six digits. -/
theorem putDouble_scientific : toString putDouble 1234567 = "1.23457e+06" := by
  have hn : decide ((1234567 : ℚ) < 0) = false := by
    rw [decide_eq_false_iff_not]
    norm_num
  have ht : toDouble 1234567 = 1234567 := by
    rw [toDouble_eq 1234567 20 5302424889720832 (by norm_num [abs_of_pos])
      (by norm_num [abs_of_pos]) (by norm_num) (by norm_num [abs_lt])]
    norm_num
  unfold toString putDouble shownDigits
  rw [ht, sixDigits_eq 1234567 6 123457 (by norm_num [abs_of_pos])
    (by norm_num [abs_of_pos]) (by norm_num [abs_of_pos, abs_lt]) (by decide), hn]
  decide

end ECGModel
